import Mathlib

/-!
Occupied-space cost function of the 3D scan matcher.

A shallow embedding of
`cartographer/internal/mapping_3d/scan_matching/occupied_space_cost_function.h`.

The member templates `operator()` and `Evaluate` are generic in the numeric
type `T`.  `EvaluateLoopT` and `EvaluateT` are the templates for a numeric
type given by its operations alone (`Scalar T`, no laws).  `EvaluateLoop`,
`Evaluate` and `call` are the templates at an exact numeric type: a
commutative ring with a ring homomorphism from the rationals (`Algebra ℚ T`),
where the rationals stand for the constants of type `double` / `float` held by
the functor and `algebraMap ℚ T` is the conversion `double → T` (`cast<T>()`,
the promotion in `scaling_factor_ * (1. - probability)`); `EvaluateT_ofRing`
shows that the two agree there.  `ieee754.Double` is the numeric type `double`
with rounding, underflow and overflow; statements about exact values are
settled on it.

The residual buffer `T* residual` is a list whose length is the capacity
allocated by the caller.  Writing past the capacity is undefined behaviour
in the source and is the result `none` here.

The derivative-carrying instantiation is `ceres.Jet N`.  `EvaluateLoopTraced`
is the loop of `Evaluate` with a log of its iterations.  `EvaluateLoopState`
is the loop as a transformer of the state of the call, the functor object
included, and `invoke` / `invokeAll` run the calls of a caller on it.
-/

namespace ceres

/-- Derivative-carrying numeric type `ceres::Jet<double, N>`: a value (the
scalar part `a`) together with `N` partial derivatives (the infinitesimal
part `v`).  It is the ring of dual numbers over the rationals with an
`N`-dimensional infinitesimal part, in which the product of two
infinitesimal parts is zero; `fst` is the value and `snd` the derivative
part. -/
abbrev Jet (N : Nat) : Type := TrivSqZeroExt ℚ (Fin N → ℚ)

end ceres

namespace ieee754

/-- Nearest integer to a rational, a tie going to the even integer. -/
def roundHalfEven (x : ℚ) : ℤ :=
  if x - ⌊x⌋ < 1 / 2 then ⌊x⌋
  else if 1 / 2 < x - ⌊x⌋ then ⌊x⌋ + 1
  else if ⌊x⌋ % 2 = 0 then ⌊x⌋ else ⌊x⌋ + 1

/-- Binary exponent of the binade of `q` in the format `binary64`: the floor of
the logarithm of `|q|`, and the least normal exponent `-1022` below it. -/
def exponent (q : ℚ) : ℤ := max (Int.log 2 |q|) (-1022)

/-- Unit in the last place of `binary64` at `q`: 52 fraction bits below the
exponent, `2 ^ (-1074)` in the subnormal range. -/
def ulp (q : ℚ) : ℚ := (2 : ℚ) ^ (exponent q - 52)

/-- Round to nearest, ties to even, with unbounded exponent above: the multiple
of the unit in the last place nearest to `q`. -/
def roundValue (q : ℚ) : ℚ := roundHalfEven (q / ulp q) * ulp q

/-- Value of the type `double` (IEEE 754 `binary64`): a finite value, given
as a rational, or a value that is not finite.  Infinities and NaN are one
value here, which each of `+`, `-`, `*` returns as soon as an operand is not
finite; the two zeros are one value. -/
inductive Double where
  | finite (value : ℚ)
  | nonfinite
deriving DecidableEq

/-- Rounding of an exact result to `double`: round to nearest, ties to even;
a rounded magnitude of `2 ^ 1024` or more overflows. -/
def round (q : ℚ) : Double :=
  if |roundValue q| < (2 : ℚ) ^ (1024 : ℕ) then Double.finite (roundValue q)
  else Double.nonfinite

/-- The least positive double, `2 ^ (-1074)`. -/
def leastDouble : ℚ := 1 / 2 ^ 1074

namespace Double

/-- Sum of two doubles: the exact sum, rounded. -/
def add : Double → Double → Double
  | finite a, finite b => round (a + b)
  | _, _ => nonfinite

/-- Difference of two doubles: the exact difference, rounded. -/
def sub : Double → Double → Double
  | finite a, finite b => round (a - b)
  | _, _ => nonfinite

/-- Product of two doubles: the exact product, rounded. -/
def mul : Double → Double → Double
  | finite a, finite b => round (a * b)
  | _, _ => nonfinite

end Double

end ieee754

namespace cartographer

/-- What the member templates use of their numeric type `T`: the operations
`+`, `-`, `*`, the constant `1.` and the conversion of a stored `double` or
`float` constant to `T`.  No law is assumed of them. -/
class Scalar (T : Type) extends Add T, Sub T, Mul T, One T where
  fromDouble : ℚ → T

/-- The operations of a commutative ring with a map from the rationals, the
exact numeric types of this file. -/
@[reducible] def Scalar.ofRing (T : Type) [CommRing T] [Algebra ℚ T] : Scalar T where
  add := fun a b => a + b
  sub := fun a b => a - b
  mul := fun a b => a * b
  one := 1
  fromDouble := algebraMap ℚ T

/-- The numeric type `double` with the operations of IEEE 754 arithmetic; a
stored constant is converted by rounding. -/
instance Scalar.double : Scalar ieee754.Double where
  add := ieee754.Double.add
  sub := ieee754.Double.sub
  mul := ieee754.Double.mul
  one := ieee754.Double.finite 1
  fromDouble := ieee754.round

/-- Column vector with three components, `Eigen::Matrix<T, 3, 1>`; the
components `v[0]`, `v[1]`, `v[2]` are `x`, `y`, `z`. -/
structure Vector3 (T : Type) where
  x : T
  y : T
  z : T
deriving DecidableEq

namespace Vector3

variable {T : Type}

/-- Component-wise sum of two vectors. -/
def add [Add T] (a b : Vector3 T) : Vector3 T :=
  ⟨a.x + b.x, a.y + b.y, a.z + b.z⟩

/-- Product of a scalar and a vector. -/
def scale [Mul T] (c : T) (a : Vector3 T) : Vector3 T :=
  ⟨c * a.x, c * a.y, c * a.z⟩

/-- Cross product of two vectors. -/
def cross [Mul T] [Sub T] (a b : Vector3 T) : Vector3 T :=
  ⟨a.y * b.z - a.z * b.y, a.z * b.x - a.x * b.z, a.x * b.y - a.y * b.x⟩

/-- Conversion `point.cast<T>()` of a stored point to the numeric type of the
evaluation. -/
def cast [CommRing T] [Algebra ℚ T] (v : Vector3 ℚ) : Vector3 T :=
  ⟨algebraMap ℚ T v.x, algebraMap ℚ T v.y, algebraMap ℚ T v.z⟩

/-- Conversion `point.cast<T>()` for a numeric type given by its operations. -/
def castT [Scalar T] (v : Vector3 ℚ) : Vector3 T :=
  ⟨Scalar.fromDouble v.x, Scalar.fromDouble v.y, Scalar.fromDouble v.z⟩

end Vector3

/-- Rotation quaternion `Eigen::Quaternion<T>`, coefficients named as in
its constructor `Quaternion(w, x, y, z)`. -/
structure Quaternion (T : Type) where
  w : T
  x : T
  y : T
  z : T
deriving DecidableEq

namespace Quaternion

variable {T : Type}

/-- Vector part `(x, y, z)` of a quaternion, `q.vec()`. -/
def vec (q : Quaternion T) : Vector3 T := ⟨q.x, q.y, q.z⟩

/-- Modelled from the spec: the quaternion-vector product `q * v` used by the
rigid transform is not among the sources; the spec describes it as the rotation
of a unit quaternion.  The steps are those of the linear-algebra library:
`uv = q.vec() × v; uv += uv; v + q.w * uv + q.vec() × uv`. -/
def transformVector [CommRing T] (q : Quaternion T) (v : Vector3 T) : Vector3 T :=
  let uv := q.vec.cross v
  let uv := uv.add uv
  (v.add (Vector3.scale q.w uv)).add (q.vec.cross uv)

/-- Modelled from the spec: the quaternion-vector product `q * v` of
`transformVector`, with the same steps, for a numeric type given by its
operations. -/
def transformVectorT [Scalar T] (q : Quaternion T) (v : Vector3 T) : Vector3 T :=
  let uv := q.vec.cross v
  let uv := uv.add uv
  (v.add (Vector3.scale q.w uv)).add (q.vec.cross uv)

/-- Hamilton product of two quaternions. -/
def mul [CommRing T] (a b : Quaternion T) : Quaternion T :=
  ⟨a.w * b.w - a.x * b.x - a.y * b.y - a.z * b.z,
   a.w * b.x + a.x * b.w + a.y * b.z - a.z * b.y,
   a.w * b.y - a.x * b.z + a.y * b.w + a.z * b.x,
   a.w * b.z + a.x * b.y - a.y * b.x + a.z * b.w⟩

/-- Conjugate of a quaternion. -/
def conjugate [CommRing T] (q : Quaternion T) : Quaternion T :=
  ⟨q.w, -q.x, -q.y, -q.z⟩

/-- Squared norm of a quaternion; a unit quaternion has squared norm `1`. -/
def squaredNorm [CommRing T] (q : Quaternion T) : T :=
  q.w * q.w + q.x * q.x + q.y * q.y + q.z * q.z

/-- The rotation `R(q)` of a unit quaternion in the words of the spec, as the
textbook action on a vector: the vector part of `q (0, v) q*`. -/
def specRotation [CommRing T] (q : Quaternion T) (v : Vector3 T) : Vector3 T :=
  ((q.mul ⟨0, v.x, v.y, v.z⟩).mul q.conjugate).vec

end Quaternion

/-- Rigid transform `transform::Rigid3<T>`: a translation and a rotation. -/
structure Rigid3 (T : Type) where
  translation : Vector3 T
  rotation : Quaternion T
deriving DecidableEq

namespace Rigid3

variable {T : Type}

/-- Modelled from the spec: `transform::Rigid3<T>` and its `operator*` on a
point (`cartographer/transform/rigid_transform.h`) are not among the sources;
the spec says the transform is a translation and a unit rotation quaternion
composed as rotate-then-translate: `rotation * point + translation`. -/
def apply [CommRing T] (rigid : Rigid3 T) (point : Vector3 T) : Vector3 T :=
  (rigid.rotation.transformVector point).add rigid.translation

/-- Modelled from the spec: `operator*` of the rigid transform on a point as
in `apply`, `rotation * point + translation`, for a numeric type given by its
operations. -/
def applyT [Scalar T] (rigid : Rigid3 T) (point : Vector3 T) : Vector3 T :=
  (rigid.rotation.transformVectorT point).add rigid.translation

/-- Identity transform: zero translation, quaternion `w = 1, x = y = z = 0`. -/
def Identity [CommRing T] : Rigid3 T :=
  ⟨⟨0, 0, 0⟩, ⟨1, 0, 0, 0⟩⟩

end Rigid3

namespace mapping_3d
namespace scan_matching

/-- The instance at numeric type `T` of the member template
`InterpolatedGrid::GetProbability(x, y, z)`.  The interpolated grid
(`interpolated_grid.h`) is not among the sources and is a parameter of the
functor. -/
structure InterpolatedGrid (T : Type) where
  GetProbability : T → T → T → T

/-- Data members of the class `OccupiedSpaceCostFunction`, as set by its
constructor from `scaling_factor`, `point_cloud` and `hybrid_grid`. -/
structure OccupiedSpaceCostFunction (T : Type) where
  scaling_factor_ : ℚ
  point_cloud_ : List (Vector3 ℚ)
  interpolated_grid_ : InterpolatedGrid T

namespace OccupiedSpaceCostFunction

variable {T : Type} [CommRing T] [Algebra ℚ T]

/-- The loop of `Evaluate`, entered with loop index `i` and the current
contents of the residual buffer:
`for (; i < point_cloud_.size(); ++i) { ... residual[i] = ...; }`.
The result is the buffer after the loop, or `none` when a write falls
outside the buffer. -/
def EvaluateLoop (self : OccupiedSpaceCostFunction T) (transform : Rigid3 T)
    (i : Nat) (residual : List T) : Option (List T) :=
  if h : i < self.point_cloud_.length then
    let world : Vector3 T := transform.apply (self.point_cloud_[i]).cast
    let probability : T :=
      self.interpolated_grid_.GetProbability world.x world.y world.z
    if i < residual.length then
      EvaluateLoop self transform (i + 1)
        (residual.set i (algebraMap ℚ T self.scaling_factor_ * (1 - probability)))
    else
      none
  else
    some residual
termination_by self.point_cloud_.length - i

/-- Member `Evaluate(transform, residual)`: runs the loop from index `0` and
returns `true` together with the residual buffer. -/
def Evaluate (self : OccupiedSpaceCostFunction T) (transform : Rigid3 T)
    (residual : List T) : Option (Bool × List T) :=
  match EvaluateLoop self transform 0 residual with
  | some residual => some (true, residual)
  | none => none

/-- Member `operator()(translation, rotation, residual)`: builds the rigid
transform from the parameter blocks (three translation components, four
rotation components passed to `Quaternion(w, x, y, z)` in array order) and
calls `Evaluate`. -/
def call (self : OccupiedSpaceCostFunction T) (translation : Fin 3 → T)
    (rotation : Fin 4 → T) (residual : List T) : Option (Bool × List T) :=
  let transform : Rigid3 T :=
    ⟨⟨translation 0, translation 1, translation 2⟩,
     ⟨rotation 0, rotation 1, rotation 2, rotation 3⟩⟩
  Evaluate self transform residual

/-- The probability the field returns for a stored point under a transform:
`GetProbability` at the three coordinates of the transformed point, the value
of the local `probability` in the body of the loop. -/
def probabilityAt (self : OccupiedSpaceCostFunction T) (transform : Rigid3 T)
    (point : Vector3 ℚ) : T :=
  self.interpolated_grid_.GetProbability (transform.apply point.cast).x
    (transform.apply point.cast).y (transform.apply point.cast).z

/-- The loop of the member template `Evaluate` for a numeric type `T` given
by its operations alone:
`for (; i < point_cloud_.size(); ++i) { ... residual[i] = ...; }`.
`EvaluateLoop` is this loop at an exact numeric type; at `T = double` the
operations round. -/
def EvaluateLoopT {T : Type} [Scalar T] (self : OccupiedSpaceCostFunction T)
    (transform : Rigid3 T) (i : Nat) (residual : List T) : Option (List T) :=
  if h : i < self.point_cloud_.length then
    let world : Vector3 T := transform.applyT (self.point_cloud_[i]).castT
    let probability : T :=
      self.interpolated_grid_.GetProbability world.x world.y world.z
    if i < residual.length then
      EvaluateLoopT self transform (i + 1)
        (residual.set i (Scalar.fromDouble self.scaling_factor_ * (1 - probability)))
    else
      none
  else
    some residual
termination_by self.point_cloud_.length - i

/-- The member template `Evaluate(transform, residual)` for a numeric type
given by its operations alone. -/
def EvaluateT {T : Type} [Scalar T] (self : OccupiedSpaceCostFunction T)
    (transform : Rigid3 T) (residual : List T) : Option (Bool × List T) :=
  match EvaluateLoopT self transform 0 residual with
  | some residual => some (true, residual)
  | none => none

/-- The probability the field returns for a stored point under a transform,
for a numeric type given by its operations alone. -/
def probabilityAtT {T : Type} [Scalar T] (self : OccupiedSpaceCostFunction T)
    (transform : Rigid3 T) (point : Vector3 ℚ) : T :=
  self.interpolated_grid_.GetProbability (transform.applyT point.castT).x
    (transform.applyT point.castT).y (transform.applyT point.castT).z

/-- Record of one pass through the body of the loop of `Evaluate`: the loop
index `i`, which reads `point_cloud_[i]` and writes `residual[i]`, and the
position `world` handed to `GetProbability` in that pass. -/
structure Iteration (T : Type) where
  index : Nat
  world : Vector3 T

/-- The loop of `Evaluate` together with a log of its iterations: the same
steps as `EvaluateLoop`, and every pass through the body appends its record
to the log when it queries the field. -/
def EvaluateLoopTraced (self : OccupiedSpaceCostFunction T) (transform : Rigid3 T)
    (i : Nat) (residual : List T) (log : List (Iteration T)) :
    Option (List T) × List (Iteration T) :=
  if h : i < self.point_cloud_.length then
    let world : Vector3 T := transform.apply (self.point_cloud_[i]).cast
    let probability : T :=
      self.interpolated_grid_.GetProbability world.x world.y world.z
    let log := log ++ [⟨i, world⟩]
    if i < residual.length then
      EvaluateLoopTraced self transform (i + 1)
        (residual.set i (algebraMap ℚ T self.scaling_factor_ * (1 - probability))) log
    else
      (none, log)
  else
    (some residual, log)
termination_by self.point_cloud_.length - i

/-- `Evaluate` together with the log of the iterations of its loop. -/
def EvaluateTraced (self : OccupiedSpaceCostFunction T) (transform : Rigid3 T)
    (residual : List T) : Option (Bool × List T) × List (Iteration T) :=
  match EvaluateLoopTraced self transform 0 residual [] with
  | (some residual, log) => (some (true, residual), log)
  | (none, log) => (none, log)

/-- What the caller holds between calls: the functor object and the residual
buffer it hands to the functor. -/
structure CallerState (T : Type) where
  functor : OccupiedSpaceCostFunction T
  residual : List T

/-- One call made by the caller: `Evaluate` with a transform, or `operator()`
with the two parameter blocks. -/
inductive Invocation (T : Type) where
  | evaluate (transform : Rigid3 T)
  | parameters (translation : Fin 3 → T) (rotation : Fin 4 → T)

/-- State of a running call of `Evaluate`: the object `*this`, the residual
buffer of the caller and the loop variable `i`. -/
structure EvaluateState (T : Type) where
  self : OccupiedSpaceCostFunction T
  residual : List T
  i : Nat

/-- The loop of `Evaluate` as a transformer of the state of the call:
`for (; i < point_cloud_.size(); ++i) { ... residual[i] = ...; }`.
Each pass reads the members of the object from the state, performs the
assignment `residual[i] = scaling_factor_ * (1. - probability)` and increments
`i`; the result is the state in which the loop is left, or `none` when a write
falls outside the buffer. -/
def EvaluateLoopState (transform : Rigid3 T) (state : EvaluateState T) :
    Option (EvaluateState T) :=
  if h : state.i < state.self.point_cloud_.length then
    let world : Vector3 T := transform.apply (state.self.point_cloud_[state.i]).cast
    let probability : T :=
      state.self.interpolated_grid_.GetProbability world.x world.y world.z
    if state.i < state.residual.length then
      EvaluateLoopState transform
        { state with
          residual := state.residual.set state.i
            (algebraMap ℚ T state.self.scaling_factor_ * (1 - probability))
          i := state.i + 1 }
    else
      none
  else
    some state
termination_by state.self.point_cloud_.length - state.i

/-- `Evaluate` on what the caller holds: the loop runs from `i = 0` on the
functor object and the buffer, the call returns `true`, and the caller holds
the object and the buffer as the loop has left them. -/
def EvaluateOn (state : CallerState T) (transform : Rigid3 T) :
    Option (Bool × CallerState T) :=
  match EvaluateLoopState transform ⟨state.functor, state.residual, 0⟩ with
  | some final => some (true, ⟨final.self, final.residual⟩)
  | none => none

/-- `operator()` on what the caller holds: builds the transform from the
parameter blocks and runs `Evaluate`. -/
def callOn (state : CallerState T) (translation : Fin 3 → T) (rotation : Fin 4 → T) :
    Option (Bool × CallerState T) :=
  let transform : Rigid3 T :=
    ⟨⟨translation 0, translation 1, translation 2⟩,
     ⟨rotation 0, rotation 1, rotation 2, rotation 3⟩⟩
  EvaluateOn state transform

/-- Effect of one call on what the caller holds. -/
def invoke (state : CallerState T) : Invocation T → Option (Bool × CallerState T)
  | .evaluate transform => EvaluateOn state transform
  | .parameters translation rotation => callOn state translation rotation

/-- Effect of a sequence of calls, made one after the other on the same
functor and buffer. -/
def invokeAll (state : CallerState T) : List (Invocation T) → Option (CallerState T)
  | [] => some state
  | invocation :: rest =>
    match invoke state invocation with
    | some (_, next) => invokeAll next rest
    | none => none

end OccupiedSpaceCostFunction

/-! ## Concrete inputs -/

/-- Field that returns probability `0.8` at the origin and `0.2` elsewhere. -/
def originGrid : InterpolatedGrid ℚ :=
  ⟨fun x y z => if x = 0 ∧ y = 0 ∧ z = 0 then 4 / 5 else 1 / 5⟩

/-- Field that returns probability `1` on the plane `x = 1` and `0` elsewhere. -/
def stepGrid : InterpolatedGrid ℚ :=
  ⟨fun x _ _ => if x = 1 then 1 else 0⟩

/-- Functor with scaling factor `10` on the cloud `{(0,0,0)}`. -/
def originCost : OccupiedSpaceCostFunction ℚ :=
  ⟨10, [⟨0, 0, 0⟩], originGrid⟩

/-- Functor with scaling factor `10` on a cloud of two points. -/
def twoPointCost : OccupiedSpaceCostFunction ℚ :=
  ⟨10, [⟨0, 0, 0⟩, ⟨1, 2, 3⟩], originGrid⟩

/-- Functor with scaling factor `10` on a cloud with one point in free space
and one point in occupied space of `stepGrid`. -/
def stepCost : OccupiedSpaceCostFunction ℚ :=
  ⟨10, [⟨0, 0, 0⟩, ⟨1, 0, 0⟩], stepGrid⟩

/-- Functor built with the negative scaling factor `-1`. -/
def negativeCost : OccupiedSpaceCostFunction ℚ :=
  ⟨-1, [⟨0, 0, 0⟩], stepGrid⟩

/-- Translation by `(1, 0, 0)` with the identity rotation. -/
def shiftX : Rigid3 ℚ :=
  ⟨⟨1, 0, 0⟩, ⟨1, 0, 0, 0⟩⟩

/-- Translation by `(1, 0, 0)` after the rotation of the unit quaternion
`(3/5, 4/5, 0, 0)`. -/
def turnX : Rigid3 ℚ :=
  ⟨⟨1, 0, 0⟩, ⟨3 / 5, 4 / 5, 0, 0⟩⟩

/-- Field on jets with the probability `1/2 + x/4` at `(x, y, z)`. -/
def rampGrid : InterpolatedGrid (ceres.Jet 1) :=
  ⟨fun x _ _ => algebraMap ℚ (ceres.Jet 1) (1 / 2) + algebraMap ℚ (ceres.Jet 1) (1 / 4) * x⟩

/-- The same field on plain numbers. -/
def rampGridReal : InterpolatedGrid ℚ :=
  ⟨fun x _ _ => 1 / 2 + 1 / 4 * x⟩

/-- Functor on jets with scaling factor `10` on the cloud `{(1,0,0)}`. -/
def rampCost : OccupiedSpaceCostFunction (ceres.Jet 1) :=
  ⟨10, [⟨1, 0, 0⟩], rampGrid⟩

/-- Identity rotation and zero translation whose first translation component
is the differentiation variable: value `0`, derivative `1`. -/
def seedX : Rigid3 (ceres.Jet 1) :=
  ⟨⟨(0, fun _ => 1), 0, 0⟩, ⟨1, 0, 0, 0⟩⟩

/-- Field on doubles that returns the double nearest to `0.8` at the origin
and the double nearest to `0.2` elsewhere. -/
def originGridDouble : InterpolatedGrid ieee754.Double :=
  ⟨fun x y z =>
    if x = ieee754.Double.finite 0 ∧ y = ieee754.Double.finite 0 ∧
        z = ieee754.Double.finite 0 then
      ieee754.round (4 / 5)
    else ieee754.round (1 / 5)⟩

/-- Functor evaluated on doubles, scaling factor `10`, cloud `{(0,0,0)}`. -/
def originCostDouble : OccupiedSpaceCostFunction ieee754.Double :=
  ⟨10, [⟨0, 0, 0⟩], originGridDouble⟩

/-- Field on doubles that returns the probability `0.5` everywhere. -/
def halfGridDouble : InterpolatedGrid ieee754.Double :=
  ⟨fun _ _ _ => ieee754.Double.finite (1 / 2)⟩

/-- The identity transform on doubles. -/
def identityDouble : Rigid3 ieee754.Double :=
  ⟨⟨ieee754.Double.finite 0, ieee754.Double.finite 0, ieee754.Double.finite 0⟩,
   ⟨ieee754.Double.finite 1, ieee754.Double.finite 0, ieee754.Double.finite 0,
    ieee754.Double.finite 0⟩⟩

end scan_matching
end mapping_3d
end cartographer


/-! ## The loop of `Evaluate` -/

namespace cartographer
namespace mapping_3d
namespace scan_matching
namespace OccupiedSpaceCostFunction

variable {T : Type} [CommRing T] [Algebra ℚ T]

/-- One unfolding of the loop when the index is inside the cloud and inside
the buffer. -/
theorem EvaluateLoop_step (self : OccupiedSpaceCostFunction T) (transform : Rigid3 T)
    (i : Nat) (residual : List T) (hi : i < self.point_cloud_.length)
    (hcap : i < residual.length) :
    EvaluateLoop self transform i residual =
      EvaluateLoop self transform (i + 1)
        (residual.set i (algebraMap ℚ T self.scaling_factor_ *
          (1 - probabilityAt self transform (self.point_cloud_[i])))) := by
  rw [EvaluateLoop]
  simp only [hi, hcap, dif_pos, if_pos, probabilityAt]

/-- The loop stops with the buffer unchanged once the index has reached the
size of the cloud. -/
theorem EvaluateLoop_done (self : OccupiedSpaceCostFunction T) (transform : Rigid3 T)
    (i : Nat) (residual : List T) (hi : self.point_cloud_.length ≤ i) :
    EvaluateLoop self transform i residual = some residual := by
  rw [EvaluateLoop]
  simp only [Nat.not_lt.mpr hi, dif_neg, not_false_eq_true]

/-- Result of the loop entered at index `i` with a buffer at least as long as
the cloud: the loop returns, the buffer keeps its length, the slots
`i ≤ j < N` hold the residual of point `j` and every other slot is unchanged. -/
theorem EvaluateLoop_spec (self : OccupiedSpaceCostFunction T) (transform : Rigid3 T)
    (k : Nat) :
    ∀ (i : Nat) (residual : List T), self.point_cloud_.length - i = k →
      self.point_cloud_.length ≤ residual.length →
      ∃ out, EvaluateLoop self transform i residual = some out ∧
        out.length = residual.length ∧
        ∀ j, out[j]? =
          if i ≤ j ∧ j < self.point_cloud_.length then
            (self.point_cloud_[j]?).map (fun p =>
              algebraMap ℚ T self.scaling_factor_ * (1 - probabilityAt self transform p))
          else residual[j]? := by
  induction k with
  | zero =>
    intro i residual hk _
    have hi : self.point_cloud_.length ≤ i := by omega
    refine ⟨residual, EvaluateLoop_done self transform i residual hi, rfl, ?_⟩
    intro j
    have hj : ¬ (i ≤ j ∧ j < self.point_cloud_.length) := by omega
    simp only [hj, if_false]
  | succ k ih =>
    intro i residual hk hcap
    have hi : i < self.point_cloud_.length := by omega
    have hi' : i < residual.length := by omega
    obtain ⟨out, hout, hlen, hget⟩ :=
      ih (i + 1)
        (residual.set i (algebraMap ℚ T self.scaling_factor_ *
          (1 - probabilityAt self transform (self.point_cloud_[i]))))
        (by omega) (by simpa using hcap)
    refine ⟨out, ?_, ?_, ?_⟩
    · rw [EvaluateLoop_step self transform i residual hi hi']
      exact hout
    · simpa using hlen
    · intro j
      rw [hget j]
      by_cases hj : j = i
      · subst hj
        have h1 : ¬ (j + 1 ≤ j ∧ j < self.point_cloud_.length) := by omega
        have h2 : j ≤ j ∧ j < self.point_cloud_.length := ⟨le_refl j, hi⟩
        rw [if_neg h1, if_pos h2, List.getElem?_set_self hi', List.getElem?_eq_getElem hi]
        rfl
      · have hne : i ≠ j := fun h => hj h.symm
        rw [List.getElem?_set_ne hne]
        by_cases hc : i ≤ j ∧ j < self.point_cloud_.length
        · have hc' : i + 1 ≤ j ∧ j < self.point_cloud_.length := by omega
          rw [if_pos hc, if_pos hc']
        · have hc' : ¬ (i + 1 ≤ j ∧ j < self.point_cloud_.length) := by omega
          rw [if_neg hc, if_neg hc']

/-- Result of `Evaluate` on a buffer at least as long as the cloud: it returns
`true`, the buffer keeps its length, slot `j < N` holds the residual of point
`j` and the slots from `N` on are unchanged. -/
theorem Evaluate_spec (self : OccupiedSpaceCostFunction T) (transform : Rigid3 T)
    (residual : List T) (hcap : self.point_cloud_.length ≤ residual.length) :
    ∃ out, Evaluate self transform residual = some (true, out) ∧
      out.length = residual.length ∧
      ∀ j, out[j]? =
        if j < self.point_cloud_.length then
          (self.point_cloud_[j]?).map (fun p =>
            algebraMap ℚ T self.scaling_factor_ * (1 - probabilityAt self transform p))
        else residual[j]? := by
  obtain ⟨out, hout, hlen, hget⟩ :=
    EvaluateLoop_spec self transform (self.point_cloud_.length - 0) 0 residual rfl hcap
  refine ⟨out, ?_, hlen, ?_⟩
  · simp only [Evaluate, hout]
  · intro j
    rw [hget j]
    simp only [Nat.zero_le, true_and]

/-- Slot `i < N` of the buffer after `Evaluate`. -/
theorem Evaluate_getElem_of_lt (self : OccupiedSpaceCostFunction T) (transform : Rigid3 T)
    (residual out : List T) (b : Bool)
    (hcap : self.point_cloud_.length ≤ residual.length)
    (hout : Evaluate self transform residual = some (b, out))
    (i : Nat) (hi : i < self.point_cloud_.length) :
    out[i]? = some (algebraMap ℚ T self.scaling_factor_ *
      (1 - probabilityAt self transform (self.point_cloud_[i]))) := by
  obtain ⟨out', hout', _, hget⟩ := Evaluate_spec self transform residual hcap
  rw [hout'] at hout
  cases hout
  rw [hget i, if_pos hi, List.getElem?_eq_getElem hi]
  rfl

/-- Closed form of `Evaluate` on a buffer at least as long as the cloud: the
residuals of the points in order, followed by the old contents of the buffer
from slot `N` on. -/
theorem Evaluate_eq (self : OccupiedSpaceCostFunction T) (transform : Rigid3 T)
    (residual : List T) (hcap : self.point_cloud_.length ≤ residual.length) :
    Evaluate self transform residual =
      some (true,
        self.point_cloud_.map (fun p =>
            algebraMap ℚ T self.scaling_factor_ * (1 - probabilityAt self transform p))
          ++ residual.drop self.point_cloud_.length) := by
  obtain ⟨out, hout, _, hget⟩ := Evaluate_spec self transform residual hcap
  rw [hout]
  congr 2
  apply List.ext_getElem?
  intro j
  rw [hget j]
  by_cases hj : j < self.point_cloud_.length
  · rw [if_pos hj, List.getElem?_append_left (by simpa using hj), List.getElem?_map]
  · rw [if_neg hj, List.getElem?_append_right (by simpa using hj), List.getElem?_drop]
    congr 1
    simp only [List.length_map]
    omega

omit [Algebra ℚ T] in
/-- The identity transform leaves every point where it is. -/
theorem apply_Identity (point : Vector3 T) : (Rigid3.Identity).apply point = point := by
  cases point
  simp [Rigid3.apply, Rigid3.Identity, Quaternion.transformVector, Quaternion.vec,
    Vector3.add, Vector3.scale, Vector3.cross]

/-- On the parameter blocks of the identity transform `operator()` is
`Evaluate` at the identity transform. -/
theorem call_identity (self : OccupiedSpaceCostFunction T) (residual : List T) :
    call self ![0, 0, 0] ![1, 0, 0, 0] residual =
      Evaluate self Rigid3.Identity residual := by
  simp [call, Rigid3.Identity]

/-- In a linearly ordered numeric type the conversion from the rationals
keeps non-negative constants non-negative. -/
theorem algebraMap_rat_nonneg {T : Type} [LinearOrderedCommRing T] [Algebra ℚ T]
    (q : ℚ) (hq : 0 ≤ q) : 0 ≤ algebraMap ℚ T q := by
  have hmul : algebraMap ℚ T q * ((q.den : ℕ) : T) = ((q.num : ℤ) : T) := by
    rw [← map_natCast (algebraMap ℚ T) q.den, ← map_mul, Rat.mul_den_eq_num, map_intCast]
  have hnum : (0 : T) ≤ ((q.num : ℤ) : T) := Int.cast_nonneg.mpr (Rat.num_nonneg.mpr hq)
  have hden : (0 : T) < ((q.den : ℕ) : T) := Nat.cast_pos.mpr q.den_pos
  rw [← hmul] at hnum
  exact nonneg_of_mul_nonneg_left hnum hden

/-- The residual formula on an ordered numeric type: with a non-negative
factor it maps `[0, 1]` into `[0, factor]` and reverses the order. -/
theorem scaled_complement_bounds {T : Type} [LinearOrderedCommRing T] (c p : T)
    (hc : 0 ≤ c) (hp0 : 0 ≤ p) (hp1 : p ≤ 1) : 0 ≤ c * (1 - p) ∧ c * (1 - p) ≤ c := by
  constructor
  · exact mul_nonneg hc (sub_nonneg.mpr hp1)
  · calc c * (1 - p) ≤ c * 1 := mul_le_mul_of_nonneg_left (by linarith) hc
      _ = c := mul_one c

/-- Whatever the buffer, a result of `Evaluate` carries the value `true`. -/
theorem Evaluate_fst (self : OccupiedSpaceCostFunction T) (transform : Rigid3 T)
    (residual out : List T) (b : Bool)
    (h : Evaluate self transform residual = some (b, out)) : b = true := by
  unfold Evaluate at h
  split at h
  · cases h
    rfl
  · cases h

omit [Algebra ℚ T] in
/-- For a unit quaternion the steps of the quaternion-vector product compute
the rotation `q (0, v) q*`. -/
theorem transformVector_eq_specRotation (q : Quaternion T) (v : Vector3 T)
    (hunit : q.squaredNorm = 1) : q.transformVector v = q.specRotation v := by
  obtain ⟨w, x, y, z⟩ := q
  obtain ⟨a, b, c⟩ := v
  simp only [Quaternion.squaredNorm] at hunit
  simp only [Quaternion.transformVector, Quaternion.specRotation, Quaternion.mul,
    Quaternion.conjugate, Quaternion.vec, Vector3.add, Vector3.scale, Vector3.cross,
    Vector3.mk.injEq]
  refine ⟨?_, ?_, ?_⟩
  · linear_combination (-a) * hunit
  · linear_combination (-b) * hunit
  · linear_combination (-c) * hunit

/-! ## The claims -/

/-- C1: for every scaling factor, point cloud of size `N`, probability field
and rigid transform, `Evaluate` on a buffer of capacity at least `N` returns
and has written, for every index `i < N`,
`residual[i] = scaling_factor * (1 - f(X applied to point_i))`, where `f` is
`GetProbability` at the three coordinates of the transformed point. -/
theorem Evaluate_writes_scaled_complement (self : OccupiedSpaceCostFunction T)
    (transform : Rigid3 T) (residual : List T)
    (hcap : self.point_cloud_.length ≤ residual.length) :
    ∃ out, Evaluate self transform residual = some (true, out) ∧
      ∀ (i : Nat) (hi : i < self.point_cloud_.length),
        out[i]? = some (algebraMap ℚ T self.scaling_factor_ *
          (1 - self.interpolated_grid_.GetProbability
            (transform.apply (self.point_cloud_[i]).cast).x
            (transform.apply (self.point_cloud_[i]).cast).y
            (transform.apply (self.point_cloud_[i]).cast).z)) := by
  obtain ⟨out, hout, _, _⟩ := Evaluate_spec self transform residual hcap
  exact ⟨out, hout, fun i hi =>
    Evaluate_getElem_of_lt self transform residual out true hcap hout i hi⟩

/-- Witness of C1 on a cloud of two points, a rotation and translation, and a
buffer of three slots. -/
theorem Evaluate_writes_scaled_complement_witness :
    twoPointCost.point_cloud_.length ≤ [(0 : ℚ), 0, 7].length ∧
    ∃ out, Evaluate twoPointCost turnX [0, 0, 7] = some (true, out) ∧
      ∀ (i : Nat) (hi : i < twoPointCost.point_cloud_.length),
        out[i]? = some (algebraMap ℚ ℚ twoPointCost.scaling_factor_ *
          (1 - twoPointCost.interpolated_grid_.GetProbability
            (turnX.apply (twoPointCost.point_cloud_[i]).cast).x
            (turnX.apply (twoPointCost.point_cloud_[i]).cast).y
            (turnX.apply (twoPointCost.point_cloud_[i]).cast).z)) :=
  ⟨by decide, Evaluate_writes_scaled_complement twoPointCost turnX [0, 0, 7] (by decide)⟩

/-- C3: for any transform, every residual written by `Evaluate` lies in the
closed interval `[0, scaling_factor]` whenever the probabilities returned by
the field at the transformed points lie in `[0, 1]`; the scaling factor is the
positive real number of the data model. -/
theorem residual_within_zero_and_scaling_factor {T : Type} [LinearOrderedCommRing T]
    [Algebra ℚ T] (self : OccupiedSpaceCostFunction T) (transform : Rigid3 T)
    (residual : List T) (hcap : self.point_cloud_.length ≤ residual.length)
    (hs : 0 < self.scaling_factor_)
    (hp : ∀ p ∈ self.point_cloud_,
      0 ≤ probabilityAt self transform p ∧ probabilityAt self transform p ≤ 1) :
    ∃ out, Evaluate self transform residual = some (true, out) ∧
      ∀ i, i < self.point_cloud_.length →
        ∃ r, out[i]? = some r ∧ 0 ≤ r ∧ r ≤ algebraMap ℚ T self.scaling_factor_ := by
  obtain ⟨out, hout, _, _⟩ := Evaluate_spec self transform residual hcap
  refine ⟨out, hout, fun i hi => ⟨_,
    Evaluate_getElem_of_lt self transform residual out true hcap hout i hi, ?_⟩⟩
  have hmem := hp _ (List.getElem_mem hi)
  exact scaled_complement_bounds _ _
    (algebraMap_rat_nonneg self.scaling_factor_ hs.le) hmem.1 hmem.2

/-- Witness of C3 on a cloud with one point in free space and one point in
occupied space, scaling factor `10`. -/
theorem residual_within_zero_and_scaling_factor_witness :
    stepCost.point_cloud_.length ≤ [(0 : ℚ), 0].length ∧
    0 < stepCost.scaling_factor_ ∧
    (∀ p ∈ stepCost.point_cloud_,
      0 ≤ probabilityAt stepCost shiftX p ∧ probabilityAt stepCost shiftX p ≤ 1) ∧
    ∃ out, Evaluate stepCost shiftX [0, 0] = some (true, out) ∧
      ∀ i, i < stepCost.point_cloud_.length →
        ∃ r, out[i]? = some r ∧ 0 ≤ r ∧ r ≤ algebraMap ℚ ℚ stepCost.scaling_factor_ :=
  have hs : 0 < stepCost.scaling_factor_ := by norm_num [stepCost]
  have hp : ∀ p ∈ stepCost.point_cloud_,
      0 ≤ probabilityAt stepCost shiftX p ∧ probabilityAt stepCost shiftX p ≤ 1 := by
    intro p hmem
    unfold probabilityAt
    simp only [stepCost, stepGrid]
    split <;> norm_num
  ⟨by decide, hs, hp,
    residual_within_zero_and_scaling_factor stepCost shiftX [0, 0] (by decide) hs hp⟩

/-- C4: the residual is monotonically decreasing in occupancy probability.
For every functor, whose scaling factor is the positive real number of the
data model, and every two probabilities `p ≤ q` returned for the same point
slot, the residual computed from `q` is less than or equal to the residual
computed from `p`: the cost increases when the point falls into less occupied
space. -/
theorem residual_decreasing_in_probability {T : Type} [LinearOrderedCommRing T]
    [Algebra ℚ T] (self : OccupiedSpaceCostFunction T) (transform₁ transform₂ : Rigid3 T)
    (residual₁ residual₂ : List T)
    (hcap₁ : self.point_cloud_.length ≤ residual₁.length)
    (hcap₂ : self.point_cloud_.length ≤ residual₂.length)
    (hs : 0 < self.scaling_factor_)
    (i : Nat) (hi : i < self.point_cloud_.length)
    (hpq : probabilityAt self transform₁ (self.point_cloud_[i]) ≤
      probabilityAt self transform₂ (self.point_cloud_[i])) :
    ∃ out₁ out₂, Evaluate self transform₁ residual₁ = some (true, out₁) ∧
      Evaluate self transform₂ residual₂ = some (true, out₂) ∧
      out₁[i]? = some (algebraMap ℚ T self.scaling_factor_ *
        (1 - probabilityAt self transform₁ (self.point_cloud_[i]))) ∧
      out₂[i]? = some (algebraMap ℚ T self.scaling_factor_ *
        (1 - probabilityAt self transform₂ (self.point_cloud_[i]))) ∧
      ∃ r₁ r₂, out₁[i]? = some r₁ ∧ out₂[i]? = some r₂ ∧ r₂ ≤ r₁ := by
  obtain ⟨out₁, hout₁, _, _⟩ := Evaluate_spec self transform₁ residual₁ hcap₁
  obtain ⟨out₂, hout₂, _, _⟩ := Evaluate_spec self transform₂ residual₂ hcap₂
  have h₁ := Evaluate_getElem_of_lt self transform₁ residual₁ out₁ true hcap₁ hout₁ i hi
  have h₂ := Evaluate_getElem_of_lt self transform₂ residual₂ out₂ true hcap₂ hout₂ i hi
  refine ⟨out₁, out₂, hout₁, hout₂, h₁, h₂, _, _, h₁, h₂, ?_⟩
  exact mul_le_mul_of_nonneg_left (sub_le_sub_left hpq 1)
    (algebraMap_rat_nonneg self.scaling_factor_ hs.le)

/-- Witness of C4: scaling factor `10`, slot `0`, the identity transform
(probability `0`) against the translation by `(1, 0, 0)` (probability `1`). -/
theorem residual_decreasing_in_probability_witness :
    stepCost.point_cloud_.length ≤ [(0 : ℚ), 0].length ∧
    stepCost.point_cloud_.length ≤ [(5 : ℚ), 6, 7].length ∧
    0 < stepCost.scaling_factor_ ∧
    probabilityAt stepCost Rigid3.Identity ⟨0, 0, 0⟩ ≤
      probabilityAt stepCost shiftX ⟨0, 0, 0⟩ ∧
    ∃ out₁ out₂, Evaluate stepCost Rigid3.Identity [0, 0] = some (true, out₁) ∧
      Evaluate stepCost shiftX [5, 6, 7] = some (true, out₂) ∧
      out₁[0]? = some (algebraMap ℚ ℚ stepCost.scaling_factor_ *
        (1 - probabilityAt stepCost Rigid3.Identity ⟨0, 0, 0⟩)) ∧
      out₂[0]? = some (algebraMap ℚ ℚ stepCost.scaling_factor_ *
        (1 - probabilityAt stepCost shiftX ⟨0, 0, 0⟩)) ∧
      ∃ r₁ r₂, out₁[0]? = some r₁ ∧ out₂[0]? = some r₂ ∧ r₂ ≤ r₁ :=
  have hs : 0 < stepCost.scaling_factor_ := by norm_num [stepCost]
  have hpq : probabilityAt stepCost Rigid3.Identity ⟨0, 0, 0⟩ ≤
      probabilityAt stepCost shiftX ⟨0, 0, 0⟩ := by
    simp [stepCost, stepGrid, probabilityAt, shiftX, Rigid3.Identity, Rigid3.apply,
      Quaternion.transformVector, Quaternion.vec, Vector3.add, Vector3.scale,
      Vector3.cross, Vector3.cast]
  ⟨by decide, by decide, hs, hpq,
    residual_decreasing_in_probability stepCost Rigid3.Identity shiftX [0, 0] [5, 6, 7]
      (by decide) (by decide) hs 0 (by decide) hpq⟩

/-- C5: endpoint values. For every scaling factor, a point whose probability
is `1` gets residual exactly `0`, and a point whose probability is `0` gets
residual exactly the scaling factor. -/
theorem residual_endpoints (self : OccupiedSpaceCostFunction T) (transform : Rigid3 T)
    (residual : List T) (hcap : self.point_cloud_.length ≤ residual.length) :
    ∃ out, Evaluate self transform residual = some (true, out) ∧
      ∀ (i : Nat) (hi : i < self.point_cloud_.length),
        (self.interpolated_grid_.GetProbability
            (transform.apply (self.point_cloud_[i]).cast).x
            (transform.apply (self.point_cloud_[i]).cast).y
            (transform.apply (self.point_cloud_[i]).cast).z = 1 →
          out[i]? = some 0) ∧
        (self.interpolated_grid_.GetProbability
            (transform.apply (self.point_cloud_[i]).cast).x
            (transform.apply (self.point_cloud_[i]).cast).y
            (transform.apply (self.point_cloud_[i]).cast).z = 0 →
          out[i]? = some (algebraMap ℚ T self.scaling_factor_)) := by
  obtain ⟨out, hout, _, _⟩ := Evaluate_spec self transform residual hcap
  refine ⟨out, hout, fun i hi => ⟨fun h1 => ?_, fun h0 => ?_⟩⟩
  · rw [Evaluate_getElem_of_lt self transform residual out true hcap hout i hi]
    simp only [probabilityAt, h1, sub_self, mul_zero]
  · rw [Evaluate_getElem_of_lt self transform residual out true hcap hout i hi]
    simp only [probabilityAt, h0, sub_zero, mul_one]

/-- Witness of C5: under the identity transform the second point of the cloud
lies in fully occupied space and gets residual `0`, the first lies in free
space and gets the scaling factor `10`. -/
theorem residual_endpoints_witness :
    stepCost.point_cloud_.length ≤ [(3 : ℚ), 4].length ∧
    ∃ out, Evaluate stepCost Rigid3.Identity [3, 4] = some (true, out) ∧
      out[1]? = some 0 ∧ out[0]? = some 10 := by
  refine ⟨by decide, ?_⟩
  obtain ⟨out, hout, h⟩ := residual_endpoints stepCost Rigid3.Identity [3, 4] (by decide)
  refine ⟨out, hout, (h 1 (by decide)).1 ?_, ?_⟩
  · simp [stepCost, stepGrid, apply_Identity, Vector3.cast]
  · have h0 := (h 0 (by decide)).2
      (by simp [stepCost, stepGrid, apply_Identity, Vector3.cast])
    rw [h0]
    simp [stepCost]

/-- C7: the number of residuals `Evaluate` produces equals the size `N` of the
point cloud. It writes exactly the slots `0..N-1`, one per point and in the
index order of the cloud: the first `N` slots of the buffer are the residuals
of the points in order, the buffer keeps its capacity and its contents from
slot `N` on, and for the empty cloud nothing is written. -/
theorem residual_count_eq_cloud_size (self : OccupiedSpaceCostFunction T)
    (transform : Rigid3 T) (residual : List T)
    (hcap : self.point_cloud_.length ≤ residual.length) :
    ∃ out, Evaluate self transform residual = some (true, out) ∧
      out.length = residual.length ∧
      (out.take self.point_cloud_.length).length = self.point_cloud_.length ∧
      out.take self.point_cloud_.length =
        self.point_cloud_.map (fun point =>
          algebraMap ℚ T self.scaling_factor_ *
            (1 - self.interpolated_grid_.GetProbability
              (transform.apply point.cast).x (transform.apply point.cast).y
              (transform.apply point.cast).z)) ∧
      out.drop self.point_cloud_.length = residual.drop self.point_cloud_.length ∧
      (self.point_cloud_ = [] → out = residual) := by
  obtain ⟨out, hout, hlen, _⟩ := Evaluate_spec self transform residual hcap
  have heq := Evaluate_eq self transform residual hcap
  rw [hout] at heq
  have hout' : out = self.point_cloud_.map (fun p =>
      algebraMap ℚ T self.scaling_factor_ * (1 - probabilityAt self transform p))
        ++ residual.drop self.point_cloud_.length := by
    injection heq with h
    exact congrArg Prod.snd h
  refine ⟨out, hout, hlen, ?_, ?_, ?_, ?_⟩
  · rw [List.length_take, hlen]
    exact Nat.min_eq_left hcap
  · rw [hout']
    exact List.take_left' (List.length_map _ _)
  · rw [hout']
    exact List.drop_left' (List.length_map _ _)
  · intro hnil
    rw [hout', hnil]
    rfl

/-- Witness of C7 on clouds of size zero, one and two. -/
theorem residual_count_eq_cloud_size_witness :
    ((⟨10, [], originGrid⟩ : OccupiedSpaceCostFunction ℚ).point_cloud_.length ≤
        [(7 : ℚ), 8].length ∧
      ∃ out, Evaluate ⟨10, [], originGrid⟩ turnX [7, 8] = some (true, out) ∧
        out = [7, 8]) ∧
    (originCost.point_cloud_.length ≤ [(7 : ℚ)].length ∧
      ∃ out, Evaluate originCost turnX [7] = some (true, out) ∧ out.length = 1) ∧
    (twoPointCost.point_cloud_.length ≤ [(7 : ℚ), 8, 9].length ∧
      ∃ out, Evaluate twoPointCost turnX [7, 8, 9] = some (true, out) ∧
        (out.take 2).length = 2 ∧ out.drop 2 = [9]) := by
  refine ⟨⟨by decide, ?_⟩, ⟨by decide, ?_⟩, ⟨by decide, ?_⟩⟩
  · obtain ⟨out, hout, _, _, _, _, hnil⟩ :=
      residual_count_eq_cloud_size (⟨10, [], originGrid⟩ : OccupiedSpaceCostFunction ℚ)
        turnX [7, 8] (by decide)
    exact ⟨out, hout, hnil rfl⟩
  · obtain ⟨out, hout, hlen, _⟩ :=
      residual_count_eq_cloud_size originCost turnX [7] (by decide)
    exact ⟨out, hout, hlen⟩
  · obtain ⟨out, hout, _, htake, _, hdrop, _⟩ :=
      residual_count_eq_cloud_size twoPointCost turnX [7, 8, 9] (by decide)
    exact ⟨out, hout, htake, hdrop⟩

/-- C8: `Evaluate` and `operator()` return success unconditionally. For every
scaling factor, point cloud (the empty one included), field and transform
parameters they return `true` on a buffer that holds the cloud, and on no
buffer at all does either return `false`. -/
theorem Evaluate_and_call_return_true (self : OccupiedSpaceCostFunction T)
    (transform : Rigid3 T) (translation : Fin 3 → T) (rotation : Fin 4 → T)
    (residual : List T) (hcap : self.point_cloud_.length ≤ residual.length) :
    (∃ out, Evaluate self transform residual = some (true, out)) ∧
    (∃ out, call self translation rotation residual = some (true, out)) ∧
    (∀ (buffer out : List T) (b : Bool),
      Evaluate self transform buffer = some (b, out) → b = true) ∧
    (∀ (buffer out : List T) (b : Bool),
      call self translation rotation buffer = some (b, out) → b = true) := by
  refine ⟨?_, ?_, ?_, ?_⟩
  · obtain ⟨out, hout, _, _⟩ := Evaluate_spec self transform residual hcap
    exact ⟨out, hout⟩
  · obtain ⟨out, hout, _, _⟩ := Evaluate_spec self
      ⟨⟨translation 0, translation 1, translation 2⟩,
       ⟨rotation 0, rotation 1, rotation 2, rotation 3⟩⟩ residual hcap
    exact ⟨out, hout⟩
  · intro buffer out b h
    exact Evaluate_fst self transform buffer out b h
  · intro buffer out b h
    exact Evaluate_fst self _ buffer out b h

/-- Witness of C8 on the empty cloud with an empty buffer and on a cloud of
two points, with rotation parameters that are not a unit quaternion. -/
theorem Evaluate_and_call_return_true_witness :
    ((⟨10, [], originGrid⟩ : OccupiedSpaceCostFunction ℚ).point_cloud_.length ≤
        ([] : List ℚ).length ∧
      (∃ out, Evaluate ⟨10, [], originGrid⟩ turnX [] = some (true, out)) ∧
      (∃ out, call ⟨10, [], originGrid⟩ ![1, 2, 3] ![0, 0, 0, 0] [] =
        some (true, out))) ∧
    (twoPointCost.point_cloud_.length ≤ [(0 : ℚ), 0].length ∧
      (∃ out, Evaluate twoPointCost turnX [0, 0] = some (true, out)) ∧
      (∃ out, call twoPointCost ![1, 2, 3] ![0, 0, 0, 0] [0, 0] = some (true, out))) :=
  ⟨⟨by decide,
     (Evaluate_and_call_return_true (⟨10, [], originGrid⟩ : OccupiedSpaceCostFunction ℚ)
        turnX ![1, 2, 3] ![0, 0, 0, 0] [] (by decide)).1,
     (Evaluate_and_call_return_true (⟨10, [], originGrid⟩ : OccupiedSpaceCostFunction ℚ)
        turnX ![1, 2, 3] ![0, 0, 0, 0] [] (by decide)).2.1⟩,
   ⟨by decide,
     (Evaluate_and_call_return_true twoPointCost turnX ![1, 2, 3] ![0, 0, 0, 0] [0, 0]
        (by decide)).1,
     (Evaluate_and_call_return_true twoPointCost turnX ![1, 2, 3] ![0, 0, 0, 0] [0, 0]
        (by decide)).2.1⟩⟩

/-- C9: the candidate transform is applied as rotate-then-translate. For every
point, translation `t` and unit quaternion `q` the transformed point is
`R(q) * point + t`, with `R(q)` the rotation of `q`; with the identity rotation
it is `point + t`; and the field is queried there: `Evaluate` writes for
`point_i` the residual of the probability at `R(q) * point_i + t`. -/
theorem transform_is_rotate_then_translate (self : OccupiedSpaceCostFunction T)
    (translation : Vector3 T) (rotation : Quaternion T) (residual : List T)
    (hcap : self.point_cloud_.length ≤ residual.length)
    (hunit : rotation.squaredNorm = 1) :
    (∀ point : Vector3 T,
      Rigid3.apply ⟨translation, rotation⟩ point =
        (rotation.specRotation point).add translation) ∧
    (∀ point : Vector3 T,
      Rigid3.apply ⟨translation, ⟨1, 0, 0, 0⟩⟩ point = point.add translation) ∧
    ∃ out, Evaluate self ⟨translation, rotation⟩ residual = some (true, out) ∧
      ∀ (i : Nat) (hi : i < self.point_cloud_.length),
        out[i]? = some (algebraMap ℚ T self.scaling_factor_ *
          (1 - self.interpolated_grid_.GetProbability
            ((rotation.specRotation (self.point_cloud_[i]).cast).add translation).x
            ((rotation.specRotation (self.point_cloud_[i]).cast).add translation).y
            ((rotation.specRotation (self.point_cloud_[i]).cast).add translation).z)) := by
  have happly : ∀ point : Vector3 T,
      Rigid3.apply ⟨translation, rotation⟩ point =
        (rotation.specRotation point).add translation := by
    intro point
    simp only [Rigid3.apply, transformVector_eq_specRotation rotation point hunit]
  refine ⟨happly, ?_, ?_⟩
  · intro point
    obtain ⟨a, b, c⟩ := point
    simp [Rigid3.apply, Quaternion.transformVector, Quaternion.vec, Vector3.add,
      Vector3.scale, Vector3.cross]
  · obtain ⟨out, hout, _, _⟩ := Evaluate_spec self ⟨translation, rotation⟩ residual hcap
    refine ⟨out, hout, fun i hi => ?_⟩
    rw [Evaluate_getElem_of_lt self ⟨translation, rotation⟩ residual out true hcap hout i hi]
    simp only [probabilityAt, happly]

/-- Witness of C9: the unit quaternion `(3/5, 4/5, 0, 0)` and the translation
`(1, 0, 0)` on a cloud of two points. -/
theorem transform_is_rotate_then_translate_witness :
    twoPointCost.point_cloud_.length ≤ [(0 : ℚ), 0].length ∧
    turnX.rotation.squaredNorm = 1 ∧
    (∀ point : Vector3 ℚ,
      Rigid3.apply ⟨turnX.translation, turnX.rotation⟩ point =
        (turnX.rotation.specRotation point).add turnX.translation) ∧
    (∀ point : Vector3 ℚ,
      Rigid3.apply ⟨turnX.translation, ⟨1, 0, 0, 0⟩⟩ point =
        point.add turnX.translation) ∧
    ∃ out, Evaluate twoPointCost ⟨turnX.translation, turnX.rotation⟩ [0, 0] =
        some (true, out) ∧
      ∀ (i : Nat) (hi : i < twoPointCost.point_cloud_.length),
        out[i]? = some (algebraMap ℚ ℚ twoPointCost.scaling_factor_ *
          (1 - twoPointCost.interpolated_grid_.GetProbability
            ((turnX.rotation.specRotation
              (twoPointCost.point_cloud_[i]).cast).add turnX.translation).x
            ((turnX.rotation.specRotation
              (twoPointCost.point_cloud_[i]).cast).add turnX.translation).y
            ((turnX.rotation.specRotation
              (twoPointCost.point_cloud_[i]).cast).add turnX.translation).z)) :=
  have hunit : turnX.rotation.squaredNorm = 1 := by
    norm_num [turnX, Quaternion.squaredNorm]
  ⟨by decide, hunit,
    transform_is_rotate_then_translate twoPointCost turnX.translation turnX.rotation
      [0, 0] (by decide) hunit⟩

/-- C10: per-point independence and index alignment. `residual[i]` depends
only on the transform, the field, the scaling factor and `point_i`: for two
point clouds of the same size that agree at index `i`, the two evaluations
under the same transform give the same `residual[i]`, whatever the other
points and the earlier contents of the buffers are. -/
theorem residual_depends_only_on_own_point (s : ℚ) (grid : InterpolatedGrid T)
    (transform : Rigid3 T) (cloud₁ cloud₂ : List (Vector3 ℚ))
    (residual₁ residual₂ : List T)
    (hcap₁ : cloud₁.length ≤ residual₁.length)
    (hcap₂ : cloud₂.length ≤ residual₂.length)
    (hsize : cloud₁.length = cloud₂.length)
    (i : Nat) (hi : i < cloud₁.length) (hagree : cloud₁[i]? = cloud₂[i]?) :
    ∃ out₁ out₂,
      Evaluate ⟨s, cloud₁, grid⟩ transform residual₁ = some (true, out₁) ∧
      Evaluate ⟨s, cloud₂, grid⟩ transform residual₂ = some (true, out₂) ∧
      out₁[i]? = out₂[i]? ∧
      out₁[i]? = some (algebraMap ℚ T s *
        (1 - grid.GetProbability (transform.apply (cloud₁[i]).cast).x
          (transform.apply (cloud₁[i]).cast).y (transform.apply (cloud₁[i]).cast).z)) := by
  have hi₂ : i < cloud₂.length := hsize ▸ hi
  obtain ⟨out₁, hout₁, _, _⟩ :=
    Evaluate_spec (⟨s, cloud₁, grid⟩ : OccupiedSpaceCostFunction T) transform
      residual₁ hcap₁
  obtain ⟨out₂, hout₂, _, _⟩ :=
    Evaluate_spec (⟨s, cloud₂, grid⟩ : OccupiedSpaceCostFunction T) transform
      residual₂ hcap₂
  have h₁ := Evaluate_getElem_of_lt _ transform residual₁ out₁ true hcap₁ hout₁ i hi
  have h₂ := Evaluate_getElem_of_lt _ transform residual₂ out₂ true hcap₂ hout₂ i hi₂
  have hpoint : cloud₁[i] = cloud₂[i] := by
    rw [List.getElem?_eq_getElem hi, List.getElem?_eq_getElem hi₂] at hagree
    exact Option.some.inj hagree
  refine ⟨out₁, out₂, hout₁, hout₂, ?_, h₁⟩
  rw [h₁, h₂]
  simp only [probabilityAt, hpoint]

/-- Witness of C10: two clouds of two points that differ at index `0` and
agree at index `1`, evaluated into buffers with different contents. -/
theorem residual_depends_only_on_own_point_witness :
    ([⟨0, 0, 0⟩, ⟨1, 2, 3⟩] : List (Vector3 ℚ)).length ≤ [(0 : ℚ), 0].length ∧
    ([⟨5, 5, 5⟩, ⟨1, 2, 3⟩] : List (Vector3 ℚ)).length ≤ [(7 : ℚ), 8, 9].length ∧
    ([⟨0, 0, 0⟩, ⟨1, 2, 3⟩] : List (Vector3 ℚ)).length =
      ([⟨5, 5, 5⟩, ⟨1, 2, 3⟩] : List (Vector3 ℚ)).length ∧
    1 < ([⟨0, 0, 0⟩, ⟨1, 2, 3⟩] : List (Vector3 ℚ)).length ∧
    ([⟨0, 0, 0⟩, ⟨1, 2, 3⟩] : List (Vector3 ℚ))[1]? =
      ([⟨5, 5, 5⟩, ⟨1, 2, 3⟩] : List (Vector3 ℚ))[1]? ∧
    ∃ out₁ out₂,
      Evaluate ⟨10, [⟨0, 0, 0⟩, ⟨1, 2, 3⟩], originGrid⟩ turnX [0, 0] =
        some (true, out₁) ∧
      Evaluate ⟨10, [⟨5, 5, 5⟩, ⟨1, 2, 3⟩], originGrid⟩ turnX [7, 8, 9] =
        some (true, out₂) ∧
      out₁[1]? = out₂[1]? := by
  obtain ⟨out₁, out₂, h₁, h₂, h, _⟩ :=
    residual_depends_only_on_own_point 10 originGrid turnX
      [⟨0, 0, 0⟩, ⟨1, 2, 3⟩] [⟨5, 5, 5⟩, ⟨1, 2, 3⟩] [0, 0] [7, 8, 9]
      (by decide) (by decide) rfl 1 (by decide) rfl
  exact ⟨by decide, by decide, rfl, by decide, rfl, out₁, out₂, h₁, h₂, h⟩

/-! ## The log of the loop, calls in sequence -/

/-- The loop with a log computes the buffer that the loop without a log
computes. -/
theorem EvaluateLoopTraced_fst (self : OccupiedSpaceCostFunction T) (transform : Rigid3 T)
    (k : Nat) :
    ∀ (i : Nat) (residual : List T) (log : List (Iteration T)),
      self.point_cloud_.length - i = k →
      (EvaluateLoopTraced self transform i residual log).1 =
        EvaluateLoop self transform i residual := by
  induction k with
  | zero =>
    intro i residual log hk
    have hi : ¬ i < self.point_cloud_.length := by omega
    rw [EvaluateLoopTraced, EvaluateLoop]
    simp only [hi, dif_neg, not_false_eq_true]
  | succ k ih =>
    intro i residual log hk
    have hi : i < self.point_cloud_.length := by omega
    rw [EvaluateLoopTraced, EvaluateLoop]
    simp only [hi, dif_pos]
    by_cases hcap : i < residual.length
    · simp only [hcap, if_pos]
      exact ih (i + 1) _ _ (by omega)
    · simp only [hcap, if_neg, not_false_eq_true]

/-- `Evaluate` with a log returns what `Evaluate` returns. -/
theorem EvaluateTraced_fst (self : OccupiedSpaceCostFunction T) (transform : Rigid3 T)
    (residual : List T) :
    (EvaluateTraced self transform residual).1 = Evaluate self transform residual := by
  have h := EvaluateLoopTraced_fst self transform (self.point_cloud_.length - 0) 0
    residual [] rfl
  unfold EvaluateTraced Evaluate
  rw [← h]
  split <;> rename_i heq <;> simp [heq]

/-- Log of the loop entered at index `i` with a buffer at least as long as the
cloud: one record for each point from index `i` on, in order, carrying the
index of the point and its transformed position. -/
theorem EvaluateLoopTraced_snd (self : OccupiedSpaceCostFunction T) (transform : Rigid3 T)
    (k : Nat) :
    ∀ (i : Nat) (residual : List T) (log : List (Iteration T)),
      self.point_cloud_.length - i = k →
      self.point_cloud_.length ≤ residual.length →
      (EvaluateLoopTraced self transform i residual log).2 =
        log ++ ((self.point_cloud_.drop i).enumFrom i).map
          (fun entry => ⟨entry.1, transform.apply entry.2.cast⟩) := by
  induction k with
  | zero =>
    intro i residual log hk _
    have hi : ¬ i < self.point_cloud_.length := by omega
    rw [EvaluateLoopTraced]
    simp only [hi, dif_neg, not_false_eq_true]
    rw [List.drop_of_length_le (by omega)]
    simp
  | succ k ih =>
    intro i residual log hk hcap
    have hi : i < self.point_cloud_.length := by omega
    have hi' : i < residual.length := by omega
    rw [EvaluateLoopTraced]
    simp only [hi, hi', dif_pos, if_pos]
    rw [ih (i + 1) _ _ (by omega) (by simpa using hcap), List.drop_eq_getElem_cons hi]
    simp only [List.enumFrom_cons, List.map_cons, List.append_assoc, List.singleton_append]

/-- Log of `Evaluate` on a buffer at least as long as the cloud. -/
theorem EvaluateTraced_snd (self : OccupiedSpaceCostFunction T) (transform : Rigid3 T)
    (residual : List T) (hcap : self.point_cloud_.length ≤ residual.length) :
    (EvaluateTraced self transform residual).2 =
      (self.point_cloud_.enum).map
        (fun entry => ⟨entry.1, transform.apply entry.2.cast⟩) := by
  have h := EvaluateLoopTraced_snd self transform (self.point_cloud_.length - 0) 0
    residual [] rfl hcap
  unfold EvaluateTraced
  split <;> rename_i heq <;> rw [heq] at h <;> simpa [List.enum] using h

/-- On a buffer shorter than the cloud the loop reaches a write outside the
buffer. -/
theorem EvaluateLoop_none_of_lt (self : OccupiedSpaceCostFunction T) (transform : Rigid3 T)
    (k : Nat) :
    ∀ (i : Nat) (residual : List T), residual.length - i = k → i ≤ residual.length →
      residual.length < self.point_cloud_.length →
      EvaluateLoop self transform i residual = none := by
  induction k with
  | zero =>
    intro i residual hk hle hlt
    have hi : i < self.point_cloud_.length := by omega
    have hi' : ¬ i < residual.length := by omega
    rw [EvaluateLoop]
    simp only [hi, hi', dif_pos, if_neg, not_false_eq_true]
  | succ k ih =>
    intro i residual hk hle hlt
    have hi : i < self.point_cloud_.length := by omega
    have hi' : i < residual.length := by omega
    rw [EvaluateLoop_step self transform i residual hi hi']
    exact ih (i + 1) _ (by simp only [List.length_set]; omega)
      (by simp only [List.length_set]; omega) (by simpa using hlt)

/-- `Evaluate` returns exactly on the buffers that are at least as long as the
cloud. -/
theorem Evaluate_isSome_iff (self : OccupiedSpaceCostFunction T) (transform : Rigid3 T)
    (residual : List T) :
    (Evaluate self transform residual).isSome = true ↔
      self.point_cloud_.length ≤ residual.length := by
  constructor
  · intro h
    by_contra hlt
    have hnone := EvaluateLoop_none_of_lt self transform (residual.length - 0) 0 residual
      rfl (Nat.zero_le _) (by omega)
    simp [Evaluate, hnone] at h
  · intro hcap
    obtain ⟨out, hout, _, _⟩ := Evaluate_spec self transform residual hcap
    simp [hout]

/-- Value and derivative part of the residual formula on jets. -/
theorem jet_scaled_complement {N : Nat} (s : ℚ) (P : ceres.Jet N) :
    (algebraMap ℚ (ceres.Jet N) s * (1 - P)).fst = s * (1 - P.fst) ∧
    (algebraMap ℚ (ceres.Jet N) s * (1 - P)).snd = -(s • P.snd) := by
  constructor
  · simp [TrivSqZeroExt.algebraMap_eq_inl]
  · simp [TrivSqZeroExt.algebraMap_eq_inl]

/-- The loop on states leaves the object `*this` as it found it. -/
theorem EvaluateLoopState_self (transform : Rigid3 T) (k : Nat) :
    ∀ state final : EvaluateState T,
      state.self.point_cloud_.length - state.i = k →
      EvaluateLoopState transform state = some final → final.self = state.self := by
  induction k with
  | zero =>
    intro state final hk h
    have hi : ¬ state.i < state.self.point_cloud_.length := by omega
    rw [EvaluateLoopState] at h
    simp only [hi, dif_neg, not_false_eq_true, Option.some.injEq] at h
    rw [← h]
  | succ k ih =>
    intro state final hk h
    have hi : state.i < state.self.point_cloud_.length := by omega
    rw [EvaluateLoopState] at h
    simp only [hi, dif_pos] at h
    by_cases hcap : state.i < state.residual.length
    · simp only [hcap, if_pos] at h
      have hstep := ih _ final (by dsimp only; omega) h
      exact hstep
    · simp only [hcap, if_neg, not_false_eq_true] at h
      cases h

/-- The loop on states computes in the buffer what `EvaluateLoop` computes. -/
theorem EvaluateLoopState_residual (transform : Rigid3 T) (k : Nat) :
    ∀ state : EvaluateState T,
      state.self.point_cloud_.length - state.i = k →
      (EvaluateLoopState transform state).map EvaluateState.residual =
        EvaluateLoop state.self transform state.i state.residual := by
  induction k with
  | zero =>
    intro state hk
    have hi : ¬ state.i < state.self.point_cloud_.length := by omega
    rw [EvaluateLoopState, EvaluateLoop]
    simp only [hi, dif_neg, not_false_eq_true, Option.map_some']
  | succ k ih =>
    intro state hk
    have hi : state.i < state.self.point_cloud_.length := by omega
    rw [EvaluateLoopState, EvaluateLoop]
    simp only [hi, dif_pos]
    by_cases hcap : state.i < state.residual.length
    · simp only [hcap, if_pos]
      have hstep := ih { state with
        residual := state.residual.set state.i
          (algebraMap ℚ T state.self.scaling_factor_ *
            (1 - state.self.interpolated_grid_.GetProbability
              (transform.apply (state.self.point_cloud_[state.i]).cast).x
              (transform.apply (state.self.point_cloud_[state.i]).cast).y
              (transform.apply (state.self.point_cloud_[state.i]).cast).z))
        i := state.i + 1 } (by dsimp only; omega)
      exact hstep
    · simp only [hcap, if_neg, not_false_eq_true, Option.map_none']

/-- A call of `Evaluate` that returns leaves the functor object unchanged and
returns `true`, whatever the buffer. -/
theorem EvaluateOn_frame (state next : CallerState T) (transform : Rigid3 T)
    (result : Bool) (h : EvaluateOn state transform = some (result, next)) :
    next.functor = state.functor ∧ result = true := by
  unfold EvaluateOn at h
  split at h
  · rename_i final hfinal
    have hself := EvaluateLoopState_self transform _ ⟨state.functor, state.residual, 0⟩
      final rfl hfinal
    cases h
    exact ⟨hself, rfl⟩
  · cases h

/-- On the buffer the call on the state of the caller computes what `Evaluate`
computes. -/
theorem EvaluateOn_residual (state : CallerState T) (transform : Rigid3 T) :
    (EvaluateOn state transform).map (fun r => (r.1, r.2.residual)) =
      Evaluate state.functor transform state.residual := by
  have h := EvaluateLoopState_residual transform _
    (⟨state.functor, state.residual, 0⟩ : EvaluateState T) rfl
  unfold EvaluateOn Evaluate
  rw [← h]
  split <;> rename_i heq <;> simp [heq]

/-- A call that returns leaves the functor object unchanged and returns
`true`. -/
theorem invoke_frame (state next : CallerState T) (invocation : Invocation T)
    (result : Bool) (h : invoke state invocation = some (result, next)) :
    next.functor = state.functor ∧ result = true := by
  cases invocation with
  | evaluate transform => exact EvaluateOn_frame state next transform result h
  | parameters translation rotation => exact EvaluateOn_frame state next _ result h

/-- A sequence of calls that runs to its end leaves the functor object
unchanged. -/
theorem invokeAll_frame (calls : List (Invocation T)) :
    ∀ state final : CallerState T,
      invokeAll state calls = some final → final.functor = state.functor := by
  induction calls with
  | nil =>
    intro state final h
    simp only [invokeAll, Option.some.injEq] at h
    rw [← h]
  | cons invocation rest ih =>
    intro state final h
    simp only [invokeAll] at h
    split at h
    · rename_i result next hnext
      exact (ih next final h).trans (invoke_frame state next invocation result hnext).1
    · cases h

/-- A call on a buffer that holds the cloud returns `true` and keeps the
capacity of the buffer. -/
theorem invoke_spec (state : CallerState T) (invocation : Invocation T)
    (hcap : state.functor.point_cloud_.length ≤ state.residual.length) :
    ∃ next, invoke state invocation = some (true, next) ∧
      next.functor = state.functor ∧ next.residual.length = state.residual.length := by
  have key : ∀ transform : Rigid3 T,
      ∃ next, EvaluateOn state transform = some (true, next) ∧
        next.functor = state.functor ∧
        next.residual.length = state.residual.length := by
    intro transform
    obtain ⟨out, hout, hlen, _⟩ := Evaluate_spec state.functor transform state.residual hcap
    have hres := EvaluateOn_residual state transform
    rw [hout] at hres
    cases hon : EvaluateOn state transform with
    | none => simp [hon] at hres
    | some r =>
      obtain ⟨result, next⟩ := r
      have hframe := EvaluateOn_frame state next transform result hon
      simp only [hon, Option.map_some', Option.some.injEq, Prod.mk.injEq] at hres
      refine ⟨next, by rw [hframe.2], hframe.1, ?_⟩
      rw [hres.2]
      exact hlen
  cases invocation with
  | evaluate transform => exact key transform
  | parameters translation rotation => exact key _

/-- A sequence of calls on a buffer that holds the cloud runs to its end and
keeps the capacity of the buffer. -/
theorem invokeAll_spec (calls : List (Invocation T)) :
    ∀ state : CallerState T,
      state.functor.point_cloud_.length ≤ state.residual.length →
      ∃ final, invokeAll state calls = some final ∧
        final.functor = state.functor ∧
        final.residual.length = state.residual.length := by
  induction calls with
  | nil =>
    intro state _
    exact ⟨state, rfl, rfl, rfl⟩
  | cons invocation rest ih =>
    intro state hcap
    obtain ⟨next, hnext, hfunctor, hlen⟩ := invoke_spec state invocation hcap
    obtain ⟨final, hfinal, hfunctor', hlen'⟩ := ih next (by rw [hfunctor, hlen]; exact hcap)
    refine ⟨final, ?_, hfunctor'.trans hfunctor, hlen'.trans hlen⟩
    simp only [invokeAll, hnext, hfinal]

/-- Indices logged by `Evaluate` on a buffer that holds the cloud: `0, 1, ...,
N - 1`, in this order. -/
theorem EvaluateTraced_indices (self : OccupiedSpaceCostFunction T) (transform : Rigid3 T)
    (residual : List T) (hcap : self.point_cloud_.length ≤ residual.length) :
    (EvaluateTraced self transform residual).2.map Iteration.index =
      List.range self.point_cloud_.length := by
  rw [EvaluateTraced_snd self transform residual hcap, List.map_map,
    ← List.enum_map_fst self.point_cloud_]
  rfl

/-- Positions at which `Evaluate` queries the field on a buffer that holds the
cloud: the transformed points of the cloud, in order. -/
theorem EvaluateTraced_worlds (self : OccupiedSpaceCostFunction T) (transform : Rigid3 T)
    (residual : List T) (hcap : self.point_cloud_.length ≤ residual.length) :
    (EvaluateTraced self transform residual).2.map Iteration.world =
      self.point_cloud_.map (fun point => transform.apply point.cast) := by
  rw [EvaluateTraced_snd self transform residual hcap, List.map_map]
  conv_rhs => rw [← List.enum_map_snd self.point_cloud_, List.map_map]
  rfl

/-! ## The claims, continued -/

/-- C11: automatic-differentiation consistency. When the evaluation is
instantiated with dual numbers (jets: a value and a derivative part whose
products vanish) and the field returns the probability `(p, dp)` for point
`i`, then `residual[i] = (scaling_factor * (1 - p), -scaling_factor * dp)`:
the value part is the residual of the plain-real evaluation in which the field
returns `p`, and the derivative part is `-scaling_factor` times the derivative
of the probability. -/
theorem jet_residual_value_and_derivative {N : Nat}
    (self : OccupiedSpaceCostFunction (ceres.Jet N)) (transform : Rigid3 (ceres.Jet N))
    (residual : List (ceres.Jet N))
    (hcap : self.point_cloud_.length ≤ residual.length)
    (grid₀ : InterpolatedGrid ℚ) (transform₀ : Rigid3 ℚ) (residual₀ : List ℚ)
    (hcap₀ : self.point_cloud_.length ≤ residual₀.length) :
    ∃ out out₀, Evaluate self transform residual = some (true, out) ∧
      Evaluate (⟨self.scaling_factor_, self.point_cloud_, grid₀⟩ :
        OccupiedSpaceCostFunction ℚ) transform₀ residual₀ = some (true, out₀) ∧
      ∀ (i : Nat) (hi : i < self.point_cloud_.length),
        ∃ r, out[i]? = some r ∧
          r.fst = self.scaling_factor_ *
            (1 - (probabilityAt self transform (self.point_cloud_[i])).fst) ∧
          r.snd = -(self.scaling_factor_ •
            (probabilityAt self transform (self.point_cloud_[i])).snd) ∧
          (grid₀.GetProbability (transform₀.apply (self.point_cloud_[i]).cast).x
              (transform₀.apply (self.point_cloud_[i]).cast).y
              (transform₀.apply (self.point_cloud_[i]).cast).z =
            (probabilityAt self transform (self.point_cloud_[i])).fst →
            out₀[i]? = some r.fst) := by
  obtain ⟨out, hout, _, _⟩ := Evaluate_spec self transform residual hcap
  obtain ⟨out₀, hout₀, _, _⟩ :=
    Evaluate_spec (⟨self.scaling_factor_, self.point_cloud_, grid₀⟩ :
      OccupiedSpaceCostFunction ℚ) transform₀ residual₀ hcap₀
  refine ⟨out, out₀, hout, hout₀, fun i hi => ⟨_,
    Evaluate_getElem_of_lt self transform residual out true hcap hout i hi,
    (jet_scaled_complement _ _).1, (jet_scaled_complement _ _).2, ?_⟩⟩
  intro hreal
  rw [Evaluate_getElem_of_lt _ transform₀ residual₀ out₀ true hcap₀ hout₀ i hi,
    (jet_scaled_complement _ _).1]
  simp only [probabilityAt, hreal, Algebra.id.map_eq_id, RingHom.id_apply]

/-- Witness of C11: the field `1/2 + x/4`, the point `(1, 0, 0)` and the
translation `(0 + ε, 0, 0)` give the probability `(3/4, 1/4)` and the residual
`(5/2, -5/2)`; the plain evaluation under the identity transform gives `5/2`. -/
theorem jet_residual_value_and_derivative_witness :
    rampCost.point_cloud_.length ≤ [(0 : ceres.Jet 1)].length ∧
    rampCost.point_cloud_.length ≤ [(0 : ℚ)].length ∧
    ∃ out out₀, Evaluate rampCost seedX [0] = some (true, out) ∧
      Evaluate (⟨rampCost.scaling_factor_, rampCost.point_cloud_, rampGridReal⟩ :
        OccupiedSpaceCostFunction ℚ) Rigid3.Identity [0] = some (true, out₀) ∧
      ∃ r : ceres.Jet 1, out[0]? = some r ∧ r.fst = (5 / 2 : ℚ) ∧
        r.snd 0 = (-(5 / 2) : ℚ) ∧ out₀[0]? = some (5 / 2 : ℚ) := by
  refine ⟨by decide, by decide, ?_⟩
  obtain ⟨out, out₀, hout, hout₀, h⟩ :=
    jet_residual_value_and_derivative rampCost seedX [0] (by decide)
      rampGridReal Rigid3.Identity [0] (by decide)
  obtain ⟨r, hr, hfst, hsnd, hreal⟩ := h 0 (by decide)
  have hp : probabilityAt rampCost seedX ⟨1, 0, 0⟩ = ((3 / 4 : ℚ), fun _ => (1 / 4 : ℚ)) := by
    apply TrivSqZeroExt.ext
    · simp [probabilityAt, rampCost, rampGrid, seedX, Rigid3.apply,
        Quaternion.transformVector, Quaternion.vec, Vector3.add, Vector3.scale,
        Vector3.cross, Vector3.cast, TrivSqZeroExt.algebraMap_eq_inl]
      norm_num
    · funext j
      simp [probabilityAt, rampCost, rampGrid, seedX, Rigid3.apply,
        Quaternion.transformVector, Quaternion.vec, Vector3.add, Vector3.scale,
        Vector3.cross, Vector3.cast, TrivSqZeroExt.algebraMap_eq_inl]
  have hpoint : rampCost.point_cloud_[0] = ⟨1, 0, 0⟩ := rfl
  rw [hpoint, hp] at hfst hsnd hreal
  refine ⟨out, out₀, hout, hout₀, r, hr, ?_, ?_, ?_⟩
  · rw [hfst]
    norm_num [rampCost]
  · rw [hsnd]
    norm_num [rampCost]
  · have h52 : r.fst = 5 / 2 := by
      rw [hfst]
      norm_num [rampCost]
    rw [← h52]
    apply hreal
    simp [rampGridReal, apply_Identity, Vector3.cast]
    norm_num

/-- C12: determinism. Evaluation is a function of the transform, the point
cloud, the grid and the scaling factor set at construction: two evaluations
with equal transform parameters on the same functor return the same value and
the same residual vector, whatever an earlier evaluation has left in the
buffer. -/
theorem evaluation_is_deterministic (self : OccupiedSpaceCostFunction T)
    (earlier transform : Rigid3 T) (translation : Fin 3 → T) (rotation : Fin 4 → T)
    (residual₁ residual₂ : List T)
    (hcap₁ : self.point_cloud_.length ≤ residual₁.length)
    (hcap₂ : self.point_cloud_.length ≤ residual₂.length) :
    ∃ used out₁ out₂ params₁ params₂,
      Evaluate self earlier residual₁ = some (true, used) ∧
      Evaluate self transform used = some (true, out₁) ∧
      Evaluate self transform residual₂ = some (true, out₂) ∧
      out₁.take self.point_cloud_.length = out₂.take self.point_cloud_.length ∧
      call self translation rotation used = some (true, params₁) ∧
      call self translation rotation residual₂ = some (true, params₂) ∧
      params₁.take self.point_cloud_.length = params₂.take self.point_cloud_.length ∧
      (residual₁.length = self.point_cloud_.length →
        residual₂.length = self.point_cloud_.length →
        out₁ = out₂ ∧ params₁ = params₂) := by
  obtain ⟨used, hused, hlen, _⟩ := Evaluate_spec self earlier residual₁ hcap₁
  have hcap : self.point_cloud_.length ≤ used.length := by rw [hlen]; exact hcap₁
  have htake : ∀ (X : Rigid3 T) (buffer : List T),
      (self.point_cloud_.map (fun p =>
          algebraMap ℚ T self.scaling_factor_ * (1 - probabilityAt self X p))
        ++ buffer.drop self.point_cloud_.length).take self.point_cloud_.length =
      self.point_cloud_.map (fun p =>
          algebraMap ℚ T self.scaling_factor_ * (1 - probabilityAt self X p)) :=
    fun X buffer => List.take_left' (List.length_map _ _)
  have hdrop : ∀ buffer : List T, buffer.length = self.point_cloud_.length →
      buffer.drop self.point_cloud_.length = [] :=
    fun buffer h => List.drop_of_length_le (by omega)
  refine ⟨used, _, _, _, _, hused, Evaluate_eq self transform used hcap,
    Evaluate_eq self transform residual₂ hcap₂, ?_,
    Evaluate_eq self _ used hcap, Evaluate_eq self _ residual₂ hcap₂, ?_, ?_⟩
  · rw [htake, htake]
  · rw [htake, htake]
  · intro h₁ h₂
    rw [hdrop used (hlen.trans h₁), hdrop residual₂ h₂]
    exact ⟨rfl, rfl⟩

/-- Witness of C12: a first evaluation under another transform fills the
buffer, the second evaluation agrees with an evaluation into a fresh buffer. -/
theorem evaluation_is_deterministic_witness :
    twoPointCost.point_cloud_.length ≤ [(0 : ℚ), 0].length ∧
    twoPointCost.point_cloud_.length ≤ [(7 : ℚ), 8].length ∧
    ∃ used out₁ out₂,
      Evaluate twoPointCost shiftX [0, 0] = some (true, used) ∧
      Evaluate twoPointCost turnX used = some (true, out₁) ∧
      Evaluate twoPointCost turnX [7, 8] = some (true, out₂) ∧
      out₁ = out₂ := by
  obtain ⟨used, out₁, out₂, _, _, h₁, h₂, h₃, _, _, _, _, heq⟩ :=
    evaluation_is_deterministic twoPointCost shiftX turnX ![1, 0, 0] ![1, 0, 0, 0]
      [0, 0] [7, 8] (by decide) (by decide)
  exact ⟨by decide, by decide, used, out₁, out₂, h₁, h₂, h₃, (heq rfl rfl).1⟩

/-- C13, counterexample: the constructor builds a functor from the scaling
factor `-1`, and the scaling factor of that functor is not positive. -/
theorem scaling_factor_positive_counterexample :
    negativeCost = OccupiedSpaceCostFunction.mk (-1) [⟨0, 0, 0⟩] stepGrid ∧
    negativeCost.scaling_factor_ = -1 ∧
    ¬ (0 < negativeCost.scaling_factor_) := by
  refine ⟨rfl, rfl, ?_⟩
  norm_num [negativeCost]

/-- C13, amended: the scaling factor of a functor instance is the real number
passed to the constructor; it is positive exactly when that argument is
positive. -/
theorem scaling_factor_eq_constructor_argument {S : Type} (scaling_factor : ℚ)
    (point_cloud : List (Vector3 ℚ)) (grid : InterpolatedGrid S) :
    (OccupiedSpaceCostFunction.mk scaling_factor point_cloud grid).scaling_factor_ =
      scaling_factor ∧
    (0 < (OccupiedSpaceCostFunction.mk scaling_factor point_cloud grid).scaling_factor_ ↔
      0 < scaling_factor) :=
  ⟨rfl, Iff.rfl⟩

/-- C14: evaluation does not change the functor. After any call of `Evaluate`
or `operator()` that returns, and after any sequence of such calls, the scaling
factor, the point cloud and the field of the functor are the same as before;
so the scaling factor is constant for the lifetime of the instance and equals
the value passed to the constructor. -/
theorem evaluation_leaves_functor_unchanged (scaling_factor : ℚ)
    (point_cloud : List (Vector3 ℚ)) (grid : InterpolatedGrid T) (residual : List T)
    (calls : List (Invocation T))
    (hcap : point_cloud.length ≤ residual.length) :
    (∃ final, invokeAll ⟨⟨scaling_factor, point_cloud, grid⟩, residual⟩ calls = some final ∧
      final.functor = ⟨scaling_factor, point_cloud, grid⟩ ∧
      final.functor.scaling_factor_ = scaling_factor ∧
      final.functor.point_cloud_ = point_cloud ∧
      final.functor.interpolated_grid_ = grid) ∧
    (∀ (state next : CallerState T) (invocation : Invocation T) (result : Bool),
      invoke state invocation = some (result, next) →
        next.functor.scaling_factor_ = state.functor.scaling_factor_ ∧
        next.functor.point_cloud_ = state.functor.point_cloud_ ∧
        next.functor.interpolated_grid_ = state.functor.interpolated_grid_) ∧
    (∀ (buffer : List T) (final : CallerState T),
      invokeAll ⟨⟨scaling_factor, point_cloud, grid⟩, buffer⟩ calls = some final →
        final.functor.scaling_factor_ = scaling_factor) := by
  refine ⟨?_, ?_, ?_⟩
  · obtain ⟨final, hfinal, hfunctor, _⟩ :=
      invokeAll_spec calls
        (⟨⟨scaling_factor, point_cloud, grid⟩, residual⟩ : CallerState T) hcap
    exact ⟨final, hfinal, hfunctor, by rw [hfunctor], by rw [hfunctor], by rw [hfunctor]⟩
  · intro state next invocation result h
    have hframe := (invoke_frame state next invocation result h).1
    exact ⟨by rw [hframe], by rw [hframe], by rw [hframe]⟩
  · intro buffer final h
    rw [invokeAll_frame calls _ final h]

/-- Witness of C14: three calls, through both members, on a buffer of three
slots. -/
theorem evaluation_leaves_functor_unchanged_witness :
    ([⟨0, 0, 0⟩, ⟨1, 2, 3⟩] : List (Vector3 ℚ)).length ≤ [(0 : ℚ), 0, 7].length ∧
    ∃ final,
      invokeAll ⟨⟨10, [⟨0, 0, 0⟩, ⟨1, 2, 3⟩], originGrid⟩, [0, 0, 7]⟩
        [Invocation.evaluate turnX, Invocation.parameters ![1, 2, 3] ![0, 0, 0, 1],
          Invocation.evaluate shiftX] = some final ∧
      final.functor = ⟨10, [⟨0, 0, 0⟩, ⟨1, 2, 3⟩], originGrid⟩ ∧
      final.functor.scaling_factor_ = 10 := by
  obtain ⟨⟨final, hfinal, hfunctor, hscale, _⟩, _⟩ :=
    evaluation_leaves_functor_unchanged 10 [⟨0, 0, 0⟩, ⟨1, 2, 3⟩] originGrid [0, 0, 7]
      [Invocation.evaluate turnX, Invocation.parameters ![1, 2, 3] ![0, 0, 0, 1],
        Invocation.evaluate shiftX] (by decide)
  exact ⟨by decide, final, hfinal, hfunctor, hscale⟩

/-- The rotation parameters reach the transform as given: with the rotation
block `(0, 2, 0, 0)`, which is not a unit quaternion, `operator()` queries the
field at `(0, -6, 0)` and writes `8`, while the transform with the normalised
quaternion `(0, 1, 0, 0)` queries it at the origin and writes `2`. -/
theorem call_rotation_as_given_example :
    call (⟨10, [⟨0, 1, 0⟩], originGrid⟩ : OccupiedSpaceCostFunction ℚ)
      ![0, 1, 0] ![0, 2, 0, 0] [0] = some (true, [8]) ∧
    Evaluate (⟨10, [⟨0, 1, 0⟩], originGrid⟩ : OccupiedSpaceCostFunction ℚ)
      ⟨⟨0, 1, 0⟩, ⟨0, 1, 0, 0⟩⟩ [0] = some (true, [2]) := by
  constructor
  · unfold call
    rw [Evaluate_eq _ _ [0] (by decide)]
    simp [originGrid, probabilityAt, Rigid3.apply, Quaternion.transformVector,
      Quaternion.vec, Vector3.add, Vector3.scale, Vector3.cross, Vector3.cast]
    norm_num
  · rw [Evaluate_eq _ _ [0] (by decide)]
    simp [originGrid, probabilityAt, Rigid3.apply, Quaternion.transformVector,
      Quaternion.vec, Vector3.add, Vector3.scale, Vector3.cross, Vector3.cast]
    norm_num

/-- C15: `operator()` on raw parameters equals `Evaluate` on the transform
built from them. For every translation array and rotation array it produces
the residuals and the return value of `Evaluate` with the transform whose
translation is `(t[0], t[1], t[2])` and whose quaternion has `w = r[0]`,
`x = r[1]`, `y = r[2]`, `z = r[3]`; the four rotation components are used as
given, neither reordered nor normalised. -/
theorem call_eq_Evaluate_of_parameters (self : OccupiedSpaceCostFunction T)
    (translation : Fin 3 → T) (rotation : Fin 4 → T) (residual : List T) :
    call self translation rotation residual =
      Evaluate self
        { translation := { x := translation 0, y := translation 1, z := translation 2 },
          rotation := { w := rotation 0, x := rotation 1, y := rotation 2,
                        z := rotation 3 } }
        residual :=
  rfl

/-- C16: under the precondition that the residual buffer has capacity at
least the size `N` of the point cloud, every index `Evaluate` uses is in
bounds: each index `i` at which it reads the point cloud and writes the buffer
satisfies `i < N ≤ capacity`, and the out-of-range result `none` is not
produced. -/
theorem indices_within_bounds (self : OccupiedSpaceCostFunction T) (transform : Rigid3 T)
    (residual : List T) (hcap : self.point_cloud_.length ≤ residual.length) :
    Evaluate self transform residual ≠ none ∧
    (∃ out, Evaluate self transform residual = some (true, out)) ∧
    (EvaluateTraced self transform residual).1 = Evaluate self transform residual ∧
    (∀ iteration ∈ (EvaluateTraced self transform residual).2,
      iteration.index < self.point_cloud_.length ∧
        self.point_cloud_.length ≤ residual.length ∧
        iteration.index < residual.length) ∧
    (∀ buffer : List T, (Evaluate self transform buffer).isSome = true ↔
      self.point_cloud_.length ≤ buffer.length) := by
  obtain ⟨out, hout, _, _⟩ := Evaluate_spec self transform residual hcap
  refine ⟨by rw [hout]; exact Option.some_ne_none _, ⟨out, hout⟩,
    EvaluateTraced_fst self transform residual, ?_,
    fun buffer => Evaluate_isSome_iff self transform buffer⟩
  intro iteration hmem
  have hindex : iteration.index ∈
      (EvaluateTraced self transform residual).2.map Iteration.index :=
    List.mem_map_of_mem Iteration.index hmem
  rw [EvaluateTraced_indices self transform residual hcap, List.mem_range] at hindex
  exact ⟨hindex, hcap, by omega⟩

/-- Witness of C16: a cloud of two points and a buffer of three slots. -/
theorem indices_within_bounds_witness :
    twoPointCost.point_cloud_.length ≤ [(0 : ℚ), 0, 7].length ∧
    Evaluate twoPointCost turnX [0, 0, 7] ≠ none ∧
    (∀ iteration ∈ (EvaluateTraced twoPointCost turnX [0, 0, 7]).2,
      iteration.index < twoPointCost.point_cloud_.length ∧
        twoPointCost.point_cloud_.length ≤ [(0 : ℚ), 0, 7].length ∧
        iteration.index < [(0 : ℚ), 0, 7].length) :=
  ⟨by decide,
    (indices_within_bounds twoPointCost turnX [0, 0, 7] (by decide)).1,
    (indices_within_bounds twoPointCost turnX [0, 0, 7] (by decide)).2.2.2.1⟩

/-- C17: `Evaluate` leaves every slot of the residual buffer at an index
`≥ N` unchanged: for a buffer longer than the point cloud the entries past the
first `N` hold after the call the values they held before it, and for `N = 0`
the whole buffer is unchanged. -/
theorem slots_past_cloud_unchanged (self : OccupiedSpaceCostFunction T)
    (transform : Rigid3 T) (residual : List T)
    (hcap : self.point_cloud_.length ≤ residual.length) :
    ∃ out, Evaluate self transform residual = some (true, out) ∧
      out.length = residual.length ∧
      (∀ j, self.point_cloud_.length ≤ j → out[j]? = residual[j]?) ∧
      (self.point_cloud_.length = 0 → out = residual) := by
  obtain ⟨out, hout, hlen, hget⟩ := Evaluate_spec self transform residual hcap
  have hpast : ∀ j, self.point_cloud_.length ≤ j → out[j]? = residual[j]? := by
    intro j hj
    rw [hget j, if_neg (Nat.not_lt.mpr hj)]
  refine ⟨out, hout, hlen, hpast, fun hzero => ?_⟩
  apply List.ext_getElem?
  intro j
  exact hpast j (by omega)

/-- Witness of C17: a cloud of two points in a buffer of four slots, and the
empty cloud. -/
theorem slots_past_cloud_unchanged_witness :
    (twoPointCost.point_cloud_.length ≤ [(0 : ℚ), 0, 7, 9].length ∧
      ∃ out, Evaluate twoPointCost turnX [0, 0, 7, 9] = some (true, out) ∧
        out[2]? = some 7 ∧ out[3]? = some 9) ∧
    ((⟨10, [], originGrid⟩ : OccupiedSpaceCostFunction ℚ).point_cloud_.length ≤
        [(7 : ℚ), 9].length ∧
      ∃ out, Evaluate ⟨10, [], originGrid⟩ turnX [7, 9] = some (true, out) ∧
        out = [7, 9]) := by
  refine ⟨⟨by decide, ?_⟩, ⟨by decide, ?_⟩⟩
  · obtain ⟨out, hout, _, hpast, _⟩ :=
      slots_past_cloud_unchanged twoPointCost turnX [0, 0, 7, 9] (by decide)
    exact ⟨out, hout, hpast 2 (by decide), hpast 3 (by decide)⟩
  · obtain ⟨out, hout, _, _, hzero⟩ :=
      slots_past_cloud_unchanged (⟨10, [], originGrid⟩ : OccupiedSpaceCostFunction ℚ)
        turnX [7, 9] (by decide)
    exact ⟨out, hout, hzero rfl⟩

/-- C18: `Evaluate` terminates for every finite point cloud. On a buffer that
holds the cloud it returns, its loop runs exactly `N` iterations with the
index strictly increasing through `0, 1, ..., N - 1` and leaves at index `N`,
and it queries the field exactly once per point, at the transformed point, in
the order of the cloud. -/
theorem loop_runs_once_per_point (self : OccupiedSpaceCostFunction T)
    (transform : Rigid3 T) (residual : List T)
    (hcap : self.point_cloud_.length ≤ residual.length) :
    ∃ out, Evaluate self transform residual = some (true, out) ∧
      (EvaluateTraced self transform residual).1 = some (true, out) ∧
      (EvaluateTraced self transform residual).2.length = self.point_cloud_.length ∧
      (EvaluateTraced self transform residual).2.map Iteration.index =
        List.range self.point_cloud_.length ∧
      ((EvaluateTraced self transform residual).2.map Iteration.index).Pairwise
        (fun i j => i < j) ∧
      (EvaluateTraced self transform residual).2.map Iteration.world =
        self.point_cloud_.map (fun point => transform.apply point.cast) ∧
      EvaluateLoop self transform self.point_cloud_.length out = some out := by
  obtain ⟨out, hout, _, _⟩ := Evaluate_spec self transform residual hcap
  have hindices := EvaluateTraced_indices self transform residual hcap
  refine ⟨out, hout, ?_, ?_, hindices, ?_,
    EvaluateTraced_worlds self transform residual hcap,
    EvaluateLoop_done self transform _ out (le_refl _)⟩
  · rw [EvaluateTraced_fst, hout]
  · have hlen := congrArg List.length hindices
    rw [List.length_map, List.length_range] at hlen
    exact hlen
  · rw [hindices]
    exact List.pairwise_lt_range _

/-- Witness of C18: two iterations, with indices `0` and `1`, on a cloud of
two points. -/
theorem loop_runs_once_per_point_witness :
    twoPointCost.point_cloud_.length ≤ [(0 : ℚ), 0].length ∧
    ∃ out, Evaluate twoPointCost turnX [0, 0] = some (true, out) ∧
      (EvaluateTraced twoPointCost turnX [0, 0]).2.length = 2 ∧
      (EvaluateTraced twoPointCost turnX [0, 0]).2.map Iteration.index = [0, 1] := by
  obtain ⟨out, hout, _, hlen, hindices, _⟩ :=
    loop_runs_once_per_point twoPointCost turnX [0, 0] (by decide)
  exact ⟨by decide, out, hout, hlen, hindices⟩

end OccupiedSpaceCostFunction
end scan_matching
end mapping_3d
end cartographer

/-! ## Rounding to `double` -/

namespace ieee754

/-- Rounding of a value at most half a unit above an integer. -/
theorem roundHalfEven_of_lt_half (x : ℚ) (f : ℤ) (h1 : (f : ℚ) ≤ x)
    (h2 : x < (f : ℚ) + 1 / 2) : roundHalfEven x = f := by
  have hf : ⌊x⌋ = f := Int.floor_eq_iff.mpr ⟨h1, by linarith⟩
  unfold roundHalfEven
  rw [hf, if_pos (by linarith)]

/-- Rounding of a value more than half a unit above an integer. -/
theorem roundHalfEven_of_gt_half (x : ℚ) (f : ℤ) (h1 : (f : ℚ) + 1 / 2 < x)
    (h2 : x < (f : ℚ) + 1) : roundHalfEven x = f + 1 := by
  have hf : ⌊x⌋ = f := Int.floor_eq_iff.mpr ⟨by linarith, h2⟩
  unfold roundHalfEven
  rw [hf, if_neg (by linarith), if_pos (by linarith)]

/-- Rounding of a tie above an even integer. -/
theorem roundHalfEven_tie_even (f : ℤ) (heven : f % 2 = 0) :
    roundHalfEven ((f : ℚ) + 1 / 2) = f := by
  have hf : ⌊(f : ℚ) + 1 / 2⌋ = f := Int.floor_eq_iff.mpr ⟨by linarith, by linarith⟩
  unfold roundHalfEven
  rw [hf, if_neg (by linarith), if_neg (by linarith), if_pos heven]

/-- The binary logarithm of a value between two consecutive powers of two. -/
theorem log_eq_of_bounds (q : ℚ) (e : ℤ) (h1 : (2 : ℚ) ^ e ≤ q)
    (h2 : q < (2 : ℚ) ^ (e + 1)) : Int.log 2 q = e := by
  have hq : 0 < q := lt_of_lt_of_le (by positivity) h1
  apply le_antisymm
  · have h := (Int.lt_zpow_iff_log_lt (b := 2) (by norm_num) hq (x := e + 1)).mp
      (by exact_mod_cast h2)
    omega
  · exact (Int.zpow_le_iff_le_log (b := 2) (by norm_num) hq).mp (by exact_mod_cast h1)

/-- Exponent of a value in the normal range. -/
theorem exponent_eq (q : ℚ) (e : ℤ) (h1 : (2 : ℚ) ^ e ≤ |q|)
    (h2 : |q| < (2 : ℚ) ^ (e + 1)) (he : -1022 ≤ e) : exponent q = e := by
  unfold exponent
  rw [log_eq_of_bounds |q| e h1 h2]
  exact max_eq_left he

/-- Exponent of a value in the subnormal range. -/
theorem exponent_subnormal (q : ℚ) (h0 : q ≠ 0) (h : |q| < (2 : ℚ) ^ (-1022 : ℤ)) :
    exponent q = -1022 := by
  unfold exponent
  have hq : 0 < |q| := abs_pos.mpr h0
  have hlog := (Int.lt_zpow_iff_log_lt (b := 2) (by norm_num) hq (x := -1022)).mp
    (by exact_mod_cast h)
  exact max_eq_right (by omega)

/-- Doubling a value raises its binary logarithm by one. -/
theorem log_two_mul (q : ℚ) (hq : q ≠ 0) : Int.log 2 |2 * q| = Int.log 2 |q| + 1 := by
  have hpos : 0 < |q| := abs_pos.mpr hq
  have h1 := Int.zpow_log_le_self (b := 2) (by norm_num) hpos
  have h2 := Int.lt_zpow_succ_log_self (b := 2) (by norm_num) |q|
  have habs : |2 * q| = 2 * |q| := by rw [abs_mul]; norm_num
  push_cast at h1 h2
  apply log_eq_of_bounds
  · rw [habs, zpow_add_one₀ (by norm_num)]
    linarith
  · rw [habs, zpow_add_one₀ (by norm_num : (2 : ℚ) ≠ 0) (Int.log 2 |q| + 1)]
    linarith

/-- In the normal range rounding commutes with doubling: the doubled value is
rounded in the next binade, at twice the unit in the last place. -/
theorem roundValue_two_mul (q : ℚ) (h : (2 : ℚ) ^ (-1022 : ℤ) ≤ |q|) :
    roundValue (2 * q) = 2 * roundValue q := by
  have hq : q ≠ 0 := by
    intro h0
    rw [h0, abs_zero] at h
    exact absurd h (not_le.mpr (by positivity))
  have hlog : -1022 ≤ Int.log 2 |q| :=
    (Int.zpow_le_iff_le_log (b := 2) (by norm_num) (abs_pos.mpr hq)).mp
      (by exact_mod_cast h)
  have he : exponent q = Int.log 2 |q| := max_eq_left hlog
  have he2 : exponent (2 * q) = Int.log 2 |q| + 1 := by
    unfold exponent
    rw [log_two_mul q hq]
    exact max_eq_left (by omega)
  have hulp : ulp (2 * q) = 2 * ulp q := by
    unfold ulp
    rw [he, he2, show Int.log 2 |q| + 1 - 52 = (Int.log 2 |q| - 52) + 1 by ring,
      zpow_add_one₀ (by norm_num)]
    ring
  have hulp0 : ulp q ≠ 0 := by unfold ulp; positivity
  unfold roundValue
  rw [hulp, show 2 * q / (2 * ulp q) = q / ulp q by field_simp; ring]
  ring

/-- Zero rounds to zero. -/
theorem roundValue_zero : roundValue 0 = 0 := by
  simp [roundValue, roundHalfEven]

/-- Zero is a double. -/
theorem round_zero : round 0 = Double.finite 0 := by
  unfold round
  rw [roundValue_zero, if_pos (by norm_num)]

/-- A rounding is finite exactly when the rounded value is below `2 ^ 1024` in
magnitude, and its value is then the rounded value. -/
theorem round_eq_finite_iff (q r : ℚ) :
    round q = Double.finite r ↔ roundValue q = r ∧ |r| < (2 : ℚ) ^ (1024 : ℕ) := by
  unfold round
  constructor
  · intro h
    split at h
    · rename_i hlt
      injection h with h
      rw [← h]
      exact ⟨rfl, hlt⟩
    · cases h
  · rintro ⟨rfl, hlt⟩
    rw [if_pos hlt]

/-- Rounding of a value whose exponent and rounded significand are known. -/
theorem round_of_exponent (q : ℚ) (e m : ℤ) (v : ℚ) (hexp : exponent q = e)
    (hm : roundHalfEven (q / (2 : ℚ) ^ (e - 52)) = m)
    (hv : (m : ℚ) * (2 : ℚ) ^ (e - 52) = v) (hfin : |v| < (2 : ℚ) ^ (1024 : ℕ)) :
    round q = Double.finite v := by
  rw [round_eq_finite_iff]
  refine ⟨?_, hfin⟩
  unfold roundValue ulp
  rw [hexp, hm, hv]

/-- Product of two finite doubles. -/
theorem Double.mul_finite (a b : ℚ) :
    (Double.finite a * Double.finite b : Double) = round (a * b) :=
  rfl

/-- Difference of two finite doubles. -/
theorem Double.sub_finite (a b : ℚ) :
    (Double.finite a - Double.finite b : Double) = round (a - b) :=
  rfl

/-- Sum of two finite doubles. -/
theorem Double.add_finite (a b : ℚ) :
    (Double.finite a + Double.finite b : Double) = round (a + b) :=
  rfl

/-- The constant `1.` as a double. -/
theorem Double.one_eq : (1 : Double) = Double.finite 1 :=
  rfl

/-- A stored constant is converted to `double` by rounding. -/
theorem Double.fromDouble_eq (q : ℚ) :
    (cartographer.Scalar.fromDouble q : Double) = round q :=
  rfl

end ieee754

/-! ## The loop for a numeric type given by its operations -/

namespace cartographer
namespace mapping_3d
namespace scan_matching
namespace OccupiedSpaceCostFunction

/-- One unfolding of the loop when the index is inside the cloud and inside
the buffer. -/
theorem EvaluateLoopT_step {T : Type} [Scalar T] (self : OccupiedSpaceCostFunction T)
    (transform : Rigid3 T) (i : Nat) (residual : List T)
    (hi : i < self.point_cloud_.length) (hcap : i < residual.length) :
    EvaluateLoopT self transform i residual =
      EvaluateLoopT self transform (i + 1)
        (residual.set i (Scalar.fromDouble self.scaling_factor_ *
          (1 - probabilityAtT self transform (self.point_cloud_[i])))) := by
  rw [EvaluateLoopT]
  simp only [hi, hcap, dif_pos, if_pos, probabilityAtT]

/-- The loop stops with the buffer unchanged once the index has reached the
size of the cloud. -/
theorem EvaluateLoopT_done {T : Type} [Scalar T] (self : OccupiedSpaceCostFunction T)
    (transform : Rigid3 T) (i : Nat) (residual : List T)
    (hi : self.point_cloud_.length ≤ i) :
    EvaluateLoopT self transform i residual = some residual := by
  rw [EvaluateLoopT]
  simp only [Nat.not_lt.mpr hi, dif_neg, not_false_eq_true]

/-- Result of the loop entered at index `i` with a buffer at least as long as
the cloud, for any numeric type: the slots `i ≤ j < N` hold the residual of
point `j` as the operations of the type compute it, every other slot is
unchanged. -/
theorem EvaluateLoopT_spec {T : Type} [Scalar T] (self : OccupiedSpaceCostFunction T)
    (transform : Rigid3 T) (k : Nat) :
    ∀ (i : Nat) (residual : List T), self.point_cloud_.length - i = k →
      self.point_cloud_.length ≤ residual.length →
      ∃ out, EvaluateLoopT self transform i residual = some out ∧
        out.length = residual.length ∧
        ∀ j, out[j]? =
          if i ≤ j ∧ j < self.point_cloud_.length then
            (self.point_cloud_[j]?).map (fun p =>
              Scalar.fromDouble self.scaling_factor_ * (1 - probabilityAtT self transform p))
          else residual[j]? := by
  induction k with
  | zero =>
    intro i residual hk _
    have hi : self.point_cloud_.length ≤ i := by omega
    refine ⟨residual, EvaluateLoopT_done self transform i residual hi, rfl, ?_⟩
    intro j
    have hj : ¬ (i ≤ j ∧ j < self.point_cloud_.length) := by omega
    rw [if_neg hj]
  | succ k ih =>
    intro i residual hk hcap
    have hi : i < self.point_cloud_.length := by omega
    have hi' : i < residual.length := by omega
    obtain ⟨out, hout, hlen, hget⟩ :=
      ih (i + 1)
        (residual.set i (Scalar.fromDouble self.scaling_factor_ *
          (1 - probabilityAtT self transform (self.point_cloud_[i]))))
        (by omega) (by simpa using hcap)
    refine ⟨out, ?_, ?_, ?_⟩
    · rw [EvaluateLoopT_step self transform i residual hi hi']
      exact hout
    · simpa using hlen
    · intro j
      rw [hget j]
      by_cases hj : j = i
      · subst hj
        have h1 : ¬ (j + 1 ≤ j ∧ j < self.point_cloud_.length) := by omega
        have h2 : j ≤ j ∧ j < self.point_cloud_.length := ⟨le_refl j, hi⟩
        rw [if_neg h1, if_pos h2, List.getElem?_set_self hi', List.getElem?_eq_getElem hi]
        rfl
      · have hne : i ≠ j := fun h => hj h.symm
        rw [List.getElem?_set_ne hne]
        by_cases hc : i ≤ j ∧ j < self.point_cloud_.length
        · have hc' : i + 1 ≤ j ∧ j < self.point_cloud_.length := by omega
          rw [if_pos hc, if_pos hc']
        · have hc' : ¬ (i + 1 ≤ j ∧ j < self.point_cloud_.length) := by omega
          rw [if_neg hc, if_neg hc']

/-- Slot `i < N` of the buffer after `Evaluate`, for any numeric type. -/
theorem EvaluateT_getElem_of_lt {T : Type} [Scalar T] (self : OccupiedSpaceCostFunction T)
    (transform : Rigid3 T) (residual : List T)
    (hcap : self.point_cloud_.length ≤ residual.length) :
    ∃ out, EvaluateT self transform residual = some (true, out) ∧
      ∀ (i : Nat) (hi : i < self.point_cloud_.length),
        out[i]? = some (Scalar.fromDouble self.scaling_factor_ *
          (1 - probabilityAtT self transform (self.point_cloud_[i]))) := by
  obtain ⟨out, hout, _, hget⟩ :=
    EvaluateLoopT_spec self transform (self.point_cloud_.length - 0) 0 residual rfl hcap
  refine ⟨out, by simp only [EvaluateT, hout], fun i hi => ?_⟩
  rw [hget i, if_pos ⟨Nat.zero_le i, hi⟩, List.getElem?_eq_getElem hi]
  rfl

/-- At an exact numeric type the loop given by operations is `EvaluateLoop`. -/
theorem EvaluateLoopT_ofRing {T : Type} [CommRing T] [Algebra ℚ T]
    (self : OccupiedSpaceCostFunction T) (transform : Rigid3 T) (k : Nat) :
    ∀ (i : Nat) (residual : List T), self.point_cloud_.length - i = k →
      @EvaluateLoopT T (Scalar.ofRing T) self transform i residual =
        EvaluateLoop self transform i residual := by
  induction k with
  | zero =>
    intro i residual hk
    have hi : ¬ i < self.point_cloud_.length := by omega
    rw [@EvaluateLoopT.eq_1 T (Scalar.ofRing T), EvaluateLoop]
    simp only [hi, dif_neg, not_false_eq_true]
  | succ k ih =>
    intro i residual hk
    have hi : i < self.point_cloud_.length := by omega
    rw [@EvaluateLoopT.eq_1 T (Scalar.ofRing T), EvaluateLoop]
    simp only [hi, dif_pos]
    by_cases hcap : i < residual.length
    · simp only [hcap, if_pos]
      exact ih (i + 1) _ (by omega)
    · simp only [hcap, if_neg, not_false_eq_true]

/-- At an exact numeric type `Evaluate` given by operations is `Evaluate`. -/
theorem EvaluateT_ofRing {T : Type} [CommRing T] [Algebra ℚ T]
    (self : OccupiedSpaceCostFunction T) (transform : Rigid3 T) (residual : List T) :
    @EvaluateT T (Scalar.ofRing T) self transform residual =
      Evaluate self transform residual := by
  unfold EvaluateT Evaluate
  rw [EvaluateLoopT_ofRing self transform _ 0 residual rfl]

end OccupiedSpaceCostFunction
end scan_matching
end mapping_3d
end cartographer

/-! ## Evaluations in `double` -/

namespace ieee754

/-- The double nearest to `0.8`. -/
theorem round_four_fifths :
    round (4 / 5) = Double.finite (3602879701896397 / 4503599627370496) :=
  round_of_exponent (4 / 5) (-1) 7205759403792794 _
    (exponent_eq (4 / 5) (-1) (by norm_num [abs_of_pos]) (by norm_num [abs_of_pos])
      (by norm_num))
    (by
      rw [roundHalfEven_of_gt_half _ 7205759403792793 (by norm_num) (by norm_num)]
      norm_num)
    (by norm_num) (by norm_num [abs_of_pos])

/-- The constant `10` is a double. -/
theorem round_ten : round 10 = Double.finite 10 :=
  round_of_exponent 10 3 5629499534213120 _
    (exponent_eq 10 3 (by norm_num [abs_of_pos]) (by norm_num [abs_of_pos]) (by norm_num))
    (roundHalfEven_of_lt_half _ 5629499534213120 (by norm_num) (by norm_num))
    (by norm_num) (by norm_num [abs_of_pos])

/-- The constant `20` is a double. -/
theorem round_twenty : round (2 * 10) = Double.finite (2 * 10) :=
  round_of_exponent (2 * 10) 4 5629499534213120 _
    (exponent_eq (2 * 10) 4 (by norm_num [abs_of_pos]) (by norm_num [abs_of_pos])
      (by norm_num))
    (roundHalfEven_of_lt_half _ 5629499534213120 (by norm_num) (by norm_num))
    (by norm_num) (by norm_num [abs_of_pos])

/-- The difference `1. - 0.8` in doubles is exact. -/
theorem round_one_sub_four_fifths :
    round (1 - 3602879701896397 / 4503599627370496) =
      Double.finite (900719925474099 / 4503599627370496) :=
  round_of_exponent _ (-3) 7205759403792792 _
    (exponent_eq _ (-3) (by norm_num [abs_of_pos]) (by norm_num [abs_of_pos])
      (by norm_num))
    (roundHalfEven_of_lt_half _ 7205759403792792 (by norm_num) (by norm_num))
    (by norm_num) (by norm_num [abs_of_pos])

/-- The product `10. * (1. - 0.8)` in doubles is `2 - 2 ^ (-51)`. -/
theorem round_ten_mul_one_fifth :
    round (10 * (900719925474099 / 4503599627370496)) =
      Double.finite (2 - 1 / 2 ^ 51) :=
  round_of_exponent _ 0 9007199254740990 _
    (exponent_eq _ 0 (by norm_num [abs_of_pos]) (by norm_num [abs_of_pos])
      (by norm_num))
    (roundHalfEven_of_lt_half _ 9007199254740990 (by norm_num) (by norm_num))
    (by norm_num) (by norm_num [abs_of_pos])

/-- The difference `1. - 0.5` in doubles. -/
theorem round_one_sub_half : round (1 - 1 / 2) = Double.finite (1 / 2) :=
  round_of_exponent _ (-1) 4503599627370496 _
    (exponent_eq _ (-1) (by norm_num [abs_of_pos]) (by norm_num [abs_of_pos])
      (by norm_num))
    (roundHalfEven_of_lt_half _ 4503599627370496 (by norm_num) (by norm_num))
    (by norm_num) (by norm_num [abs_of_pos])

/-- The least positive double is a double. -/
theorem round_leastDouble : round leastDouble = Double.finite leastDouble :=
  round_of_exponent _ (-1022) 1 _
    (exponent_subnormal _ (by norm_num [leastDouble])
      (by norm_num [leastDouble, abs_of_pos]))
    (roundHalfEven_of_lt_half _ 1 (by norm_num [leastDouble])
      (by norm_num [leastDouble]))
    (by norm_num [leastDouble]) (by norm_num [leastDouble, abs_of_pos])

/-- Twice the least positive double is a double. -/
theorem round_two_mul_leastDouble :
    round (2 * leastDouble) = Double.finite (2 * leastDouble) :=
  round_of_exponent _ (-1022) 2 _
    (exponent_subnormal _ (by norm_num [leastDouble])
      (by norm_num [leastDouble, abs_of_pos]))
    (roundHalfEven_of_lt_half _ 2 (by norm_num [leastDouble])
      (by norm_num [leastDouble]))
    (by norm_num [leastDouble]) (by norm_num [leastDouble, abs_of_pos])

/-- Half the least positive double underflows to zero: the product lies
halfway between `0` and the least positive double and the tie goes to `0`. -/
theorem round_leastDouble_mul_half : round (leastDouble * (1 / 2)) = Double.finite 0 :=
  round_of_exponent _ (-1022) 0 _
    (exponent_subnormal _ (by norm_num [leastDouble])
      (by norm_num [leastDouble, abs_of_pos]))
    (by
      have hx : leastDouble * (1 / 2) / (2 : ℚ) ^ ((-1022 : ℤ) - 52) =
          ((0 : ℤ) : ℚ) + 1 / 2 := by
        norm_num [leastDouble]
      rw [hx]
      exact roundHalfEven_tie_even 0 (by norm_num))
    (by norm_num) (by norm_num)

/-- Half of twice the least positive double is the least positive double. -/
theorem round_two_mul_leastDouble_mul_half :
    round (2 * leastDouble * (1 / 2)) = Double.finite leastDouble :=
  round_of_exponent _ (-1022) 1 _
    (exponent_subnormal _ (by norm_num [leastDouble])
      (by norm_num [leastDouble, abs_of_pos]))
    (roundHalfEven_of_lt_half _ 1 (by norm_num [leastDouble])
      (by norm_num [leastDouble]))
    (by norm_num [leastDouble]) (by norm_num [leastDouble, abs_of_pos])

end ieee754

namespace cartographer
namespace mapping_3d
namespace scan_matching
namespace OccupiedSpaceCostFunction

open ieee754

/-- Closed form of `Evaluate` for any numeric type on a buffer at least as
long as the cloud: the residuals of the points in order, followed by the old
contents of the buffer from slot `N` on. -/
theorem EvaluateT_eq {T : Type} [Scalar T] (self : OccupiedSpaceCostFunction T)
    (transform : Rigid3 T) (residual : List T)
    (hcap : self.point_cloud_.length ≤ residual.length) :
    EvaluateT self transform residual =
      some (true,
        self.point_cloud_.map (fun p =>
            Scalar.fromDouble self.scaling_factor_ * (1 - probabilityAtT self transform p))
          ++ residual.drop self.point_cloud_.length) := by
  obtain ⟨out, hout, _, hget⟩ :=
    EvaluateLoopT_spec self transform (self.point_cloud_.length - 0) 0 residual rfl hcap
  simp only [EvaluateT, hout]
  congr 2
  apply List.ext_getElem?
  intro j
  rw [hget j]
  by_cases hj : j < self.point_cloud_.length
  · rw [if_pos ⟨Nat.zero_le j, hj⟩, List.getElem?_append_left (by simpa using hj),
      List.getElem?_map]
  · rw [if_neg (fun h => hj h.2), List.getElem?_append_right (by simpa using hj),
      List.getElem?_drop]
    congr 1
    simp only [List.length_map]
    omega

/-- In doubles the identity transform leaves the origin where it is. -/
theorem identityDouble_applyT_origin :
    identityDouble.applyT (Vector3.castT (⟨0, 0, 0⟩ : Vector3 ℚ)) =
      ⟨Double.finite 0, Double.finite 0, Double.finite 0⟩ := by
  simp [Rigid3.applyT, Quaternion.transformVectorT, Quaternion.vec, Vector3.cross,
    Vector3.add, Vector3.scale, Vector3.castT, identityDouble, Double.fromDouble_eq,
    round_zero, Double.mul_finite, Double.sub_finite, Double.add_finite]

/-- In doubles, under the identity transform, the field of the example returns
the double nearest to `0.8` for the point at the origin. -/
theorem probabilityAtT_originCostDouble (s : ℚ) :
    probabilityAtT (⟨s, [⟨0, 0, 0⟩], originGridDouble⟩ : OccupiedSpaceCostFunction Double)
        identityDouble ⟨0, 0, 0⟩ =
      Double.finite (3602879701896397 / 4503599627370496) := by
  unfold probabilityAtT
  rw [identityDouble_applyT_origin]
  simp only [originGridDouble, and_self, if_true]
  exact round_four_fifths

/-- The example of the spec evaluated in doubles: scaling factor `10`, cloud
`{(0,0,0)}`, the field returning the double nearest to `0.8` at the origin and
the identity transform give the residual `2 - 2 ^ (-51)`. -/
theorem EvaluateT_originCostDouble :
    EvaluateT originCostDouble identityDouble [Double.finite 0] =
      some (true, [Double.finite (2 - 1 / 2 ^ 51)]) := by
  have hp := probabilityAtT_originCostDouble 10
  rw [EvaluateT_eq originCostDouble identityDouble _ (by decide)]
  simp only [originCostDouble, List.map_cons, List.map_nil, List.length_cons,
    List.length_nil, List.drop_succ_cons, List.drop_nil, List.singleton_append]
  rw [hp, Double.fromDouble_eq, round_ten, Double.one_eq, Double.sub_finite,
    round_one_sub_four_fifths, Double.mul_finite, round_ten_mul_one_fifth]

end OccupiedSpaceCostFunction
end scan_matching
end mapping_3d
end cartographer

/-! ## The claims on exact values -/

namespace cartographer
namespace mapping_3d
namespace scan_matching
namespace OccupiedSpaceCostFunction

open ieee754

/-- C2, counterexample: evaluated in doubles, the example of the claim (cloud
`{(0,0,0)}`, a field returning the double nearest to `0.8` at the origin,
scaling factor `10`, identity transform) writes `residual[0] = 2 - 2 ^ (-51)`,
which is `1.9999999999999996` and not `2.0`. -/
theorem identity_example_in_double_counterexample :
    originCostDouble.scaling_factor_ = 10 ∧
    originCostDouble.point_cloud_ = [⟨0, 0, 0⟩] ∧
    originCostDouble.interpolated_grid_.GetProbability
      (Double.finite 0) (Double.finite 0) (Double.finite 0) = ieee754.round (4 / 5) ∧
    EvaluateT originCostDouble identityDouble [Double.finite 0] =
      some (true, [Double.finite (2 - 1 / 2 ^ 51)]) ∧
    Double.finite (2 - 1 / 2 ^ 51) ≠ Double.finite 2 := by
  refine ⟨rfl, rfl, ?_, EvaluateT_originCostDouble, ?_⟩
  · simp only [originCostDouble, originGridDouble, and_self, if_true]
  · intro h
    injection h with h
    norm_num at h

/-- C2, amended: for the identity transform (translation `(0,0,0)`, quaternion
`w = 1`, `x = y = z = 0`), given to `Evaluate` or as parameter blocks to
`operator()`, the field is queried at the untransformed point, so
`residual[i] = scaling_factor * (1 - p)` with `p` the probability the field
returns at `point_i`; for the cloud `{(0,0,0)}`, a field returning `0.8` at
the origin and scaling factor `10`, `residual[0]` is `2` in exact arithmetic
and `2 - 2 ^ (-51)` in the arithmetic of doubles. -/
theorem identity_transform_residual_in_arithmetic {T : Type} [CommRing T] [Algebra ℚ T]
    (self : OccupiedSpaceCostFunction T) (residual : List T)
    (hcap : self.point_cloud_.length ≤ residual.length) :
    (∃ out, Evaluate self Rigid3.Identity residual = some (true, out) ∧
      @EvaluateT T (Scalar.ofRing T) self Rigid3.Identity residual = some (true, out) ∧
      call self ![0, 0, 0] ![1, 0, 0, 0] residual = some (true, out) ∧
      (∀ (i : Nat) (hi : i < self.point_cloud_.length),
        out[i]? = some (algebraMap ℚ T self.scaling_factor_ *
          (1 - self.interpolated_grid_.GetProbability
            (Vector3.cast (self.point_cloud_[i])).x
            (Vector3.cast (self.point_cloud_[i])).y
            (Vector3.cast (self.point_cloud_[i])).z))) ∧
      (self.scaling_factor_ = 10 → self.point_cloud_ = [⟨0, 0, 0⟩] →
        self.interpolated_grid_.GetProbability 0 0 0 = algebraMap ℚ T (4 / 5) →
        out[0]? = some 2)) ∧
    EvaluateT originCostDouble identityDouble [Double.finite 0] =
      some (true, [Double.finite (2 - 1 / 2 ^ 51)]) := by
  refine ⟨?_, EvaluateT_originCostDouble⟩
  obtain ⟨out, hout, _, _⟩ := Evaluate_spec self Rigid3.Identity residual hcap
  have hget : ∀ (i : Nat) (hi : i < self.point_cloud_.length),
      out[i]? = some (algebraMap ℚ T self.scaling_factor_ *
        (1 - self.interpolated_grid_.GetProbability
          (Vector3.cast (self.point_cloud_[i])).x
          (Vector3.cast (self.point_cloud_[i])).y
          (Vector3.cast (self.point_cloud_[i])).z)) := by
    intro i hi
    rw [Evaluate_getElem_of_lt self Rigid3.Identity residual out true hcap hout i hi]
    simp only [probabilityAt, apply_Identity]
  refine ⟨out, hout, ?_, ?_, hget, ?_⟩
  · rw [EvaluateT_ofRing, hout]
  · rw [call_identity, hout]
  · intro hs hpc hf
    have h0 : 0 < self.point_cloud_.length := by simp [hpc]
    rw [hget 0 h0]
    simp only [hpc, List.getElem_cons_zero, Vector3.cast, map_zero, hf, hs]
    rw [← map_one (algebraMap ℚ T), ← map_sub, ← map_mul]
    norm_num
    exact map_ofNat (algebraMap ℚ T) 2

/-- Witness of the amended C2: the example of the spec in exact arithmetic and
in doubles. -/
theorem identity_transform_residual_in_arithmetic_witness :
    originCost.point_cloud_.length ≤ [(0 : ℚ)].length ∧
    (∃ out, Evaluate originCost Rigid3.Identity [0] = some (true, out) ∧
      call originCost ![0, 0, 0] ![1, 0, 0, 0] [0] = some (true, out) ∧
      out[0]? = some 2) ∧
    EvaluateT originCostDouble identityDouble [Double.finite 0] =
      some (true, [Double.finite (2 - 1 / 2 ^ 51)]) := by
  refine ⟨by decide, ?_⟩
  obtain ⟨⟨out, h1, _, h2, _, h4⟩, hdouble⟩ :=
    identity_transform_residual_in_arithmetic originCost [0] (by decide)
  exact ⟨⟨out, h1, h2, h4 rfl rfl (by norm_num [originCost, originGrid])⟩, hdouble⟩

/-- C6, counterexample: in doubles, with the least positive double as scaling
factor and the probability `0.5`, the residual is `0` (the product underflows),
while the functor with twice the scaling factor writes the least positive
double, which is not twice `0`. -/
theorem doubling_underflow_counterexample :
    EvaluateT (⟨leastDouble, [⟨0, 0, 0⟩], halfGridDouble⟩ :
        OccupiedSpaceCostFunction Double) identityDouble [Double.finite 7] =
      some (true, [Double.finite 0]) ∧
    EvaluateT (⟨2 * leastDouble, [⟨0, 0, 0⟩], halfGridDouble⟩ :
        OccupiedSpaceCostFunction Double) identityDouble [Double.finite 7] =
      some (true, [Double.finite leastDouble]) ∧
    (Double.finite 2 * Double.finite 0 : Double) = Double.finite 0 ∧
    Double.finite leastDouble ≠ Double.finite 0 := by
  refine ⟨?_, ?_, ?_, ?_⟩
  · rw [EvaluateT_eq _ identityDouble _ (by decide)]
    simp only [List.map_cons, List.map_nil, List.length_cons, List.length_nil,
      List.drop_succ_cons, List.drop_nil, List.singleton_append, probabilityAtT,
      halfGridDouble]
    rw [Double.fromDouble_eq, round_leastDouble, Double.one_eq, Double.sub_finite,
      round_one_sub_half, Double.mul_finite, round_leastDouble_mul_half]
  · rw [EvaluateT_eq _ identityDouble _ (by decide)]
    simp only [List.map_cons, List.map_nil, List.length_cons, List.length_nil,
      List.drop_succ_cons, List.drop_nil, List.singleton_append, probabilityAtT,
      halfGridDouble]
    rw [Double.fromDouble_eq, round_two_mul_leastDouble, Double.one_eq, Double.sub_finite,
      round_one_sub_half, Double.mul_finite, round_two_mul_leastDouble_mul_half]
  · rw [Double.mul_finite, mul_zero, round_zero]
  · intro h
    injection h with h
    norm_num [leastDouble] at h

/-- C6, amended: scaling invariance. For every point cloud, field and
transform, the functor constructed with scaling factor `2 * s` produces, at
every index `i`, exactly twice the residual produced by the functor
constructed with scaling factor `s` on the same cloud, field and transform:
in exact arithmetic always, and in the arithmetic of doubles whenever `2 * s`
is stored as twice the stored factor, the exact product of the stored factor
and `1 - p_i` is zero or at least `2 ^ (-1022)` in magnitude (no underflow),
and twice the residual is below `2 ^ 1024` in magnitude (no overflow). -/
theorem doubling_scaling_doubles_residuals_unless_rounding {T : Type} [CommRing T]
    [Algebra ℚ T] (s : ℚ) (point_cloud : List (Vector3 ℚ))
    (grid : InterpolatedGrid T) (transform : Rigid3 T) (residual₁ residual₂ : List T)
    (hcap₁ : point_cloud.length ≤ residual₁.length)
    (hcap₂ : point_cloud.length ≤ residual₂.length)
    (gridD : InterpolatedGrid Double) (transformD : Rigid3 Double)
    (bufferD₁ bufferD₂ : List Double)
    (hcapD₁ : point_cloud.length ≤ bufferD₁.length)
    (hcapD₂ : point_cloud.length ≤ bufferD₂.length) :
    (∃ out₁ out₂,
      Evaluate ⟨s, point_cloud, grid⟩ transform residual₁ = some (true, out₁) ∧
      Evaluate ⟨2 * s, point_cloud, grid⟩ transform residual₂ = some (true, out₂) ∧
      ∀ i, i < point_cloud.length →
        ∃ r, out₁[i]? = some r ∧ out₂[i]? = some (2 * r)) ∧
    (∃ out₁ out₂,
      EvaluateT ⟨s, point_cloud, gridD⟩ transformD bufferD₁ = some (true, out₁) ∧
      EvaluateT ⟨2 * s, point_cloud, gridD⟩ transformD bufferD₂ = some (true, out₂) ∧
      ∀ a : ℚ, ieee754.round s = Double.finite a →
        ieee754.round (2 * s) = Double.finite (2 * a) →
        ∀ (i : Nat) (hi : i < point_cloud.length) (x r₁ : ℚ),
          1 - probabilityAtT (⟨s, point_cloud, gridD⟩ : OccupiedSpaceCostFunction Double)
            transformD (point_cloud[i]) = Double.finite x →
          (a * x = 0 ∨ (2 : ℚ) ^ (-1022 : ℤ) ≤ |a * x|) →
          out₁[i]? = some (Double.finite r₁) →
          |2 * r₁| < (2 : ℚ) ^ (1024 : ℕ) →
          out₂[i]? = some (Double.finite (2 * r₁))) := by
  constructor
  · obtain ⟨out₁, hout₁, _, _⟩ :=
      Evaluate_spec (⟨s, point_cloud, grid⟩ : OccupiedSpaceCostFunction T) transform
        residual₁ hcap₁
    obtain ⟨out₂, hout₂, _, _⟩ :=
      Evaluate_spec (⟨2 * s, point_cloud, grid⟩ : OccupiedSpaceCostFunction T) transform
        residual₂ hcap₂
    refine ⟨out₁, out₂, hout₁, hout₂, fun i hi => ⟨_,
      Evaluate_getElem_of_lt _ transform residual₁ out₁ true hcap₁ hout₁ i hi, ?_⟩⟩
    rw [Evaluate_getElem_of_lt _ transform residual₂ out₂ true hcap₂ hout₂ i hi]
    simp only [probabilityAt, map_mul, map_ofNat, mul_assoc]
  · obtain ⟨out₁, hout₁, hget₁⟩ :=
      EvaluateT_getElem_of_lt (⟨s, point_cloud, gridD⟩ : OccupiedSpaceCostFunction Double)
        transformD bufferD₁ hcapD₁
    obtain ⟨out₂, hout₂, hget₂⟩ :=
      EvaluateT_getElem_of_lt (⟨2 * s, point_cloud, gridD⟩ : OccupiedSpaceCostFunction Double)
        transformD bufferD₂ hcapD₂
    refine ⟨out₁, out₂, hout₁, hout₂, ?_⟩
    intro a ha ha2 i hi x r₁ hx hnormal hr₁ hfin
    have hsame : probabilityAtT (⟨2 * s, point_cloud, gridD⟩ :
          OccupiedSpaceCostFunction Double) transformD (point_cloud[i]) =
        probabilityAtT (⟨s, point_cloud, gridD⟩ : OccupiedSpaceCostFunction Double)
          transformD (point_cloud[i]) := rfl
    have h₁ := hget₁ i hi
    have h₂ := hget₂ i hi
    simp only [] at h₁ h₂
    rw [hr₁] at h₁
    rw [hx, Double.fromDouble_eq, ha, Double.mul_finite] at h₁
    have hval : roundValue (a * x) = r₁ :=
      ((round_eq_finite_iff (a * x) r₁).mp (Option.some.inj h₁).symm).1
    rw [h₂, hsame, hx, Double.fromDouble_eq, ha2, Double.mul_finite]
    congr 1
    rw [round_eq_finite_iff]
    refine ⟨?_, hfin⟩
    rw [mul_assoc]
    rcases hnormal with hzero | hnormal
    · rw [hzero, mul_zero, roundValue_zero]
      rw [hzero, roundValue_zero] at hval
      rw [← hval, mul_zero]
    · rw [roundValue_two_mul (a * x) hnormal, hval]

/-- Witness of the amended C6: scaling factors `10` and `20` on the example of
the spec, in exact arithmetic (residuals `2` and `4`) and in doubles
(residuals `2 - 2 ^ (-51)` and twice that). -/
theorem doubling_scaling_doubles_residuals_unless_rounding_witness :
    ([⟨0, 0, 0⟩] : List (Vector3 ℚ)).length ≤ [(0 : ℚ)].length ∧
    ([⟨0, 0, 0⟩] : List (Vector3 ℚ)).length ≤ [(1 : ℚ), 1].length ∧
    ([⟨0, 0, 0⟩] : List (Vector3 ℚ)).length ≤ [Double.finite 0].length ∧
    ([⟨0, 0, 0⟩] : List (Vector3 ℚ)).length ≤ [Double.finite 7, Double.finite 7].length ∧
    (∃ out₁ out₂,
      Evaluate ⟨10, [⟨0, 0, 0⟩], originGrid⟩ Rigid3.Identity [0] = some (true, out₁) ∧
      Evaluate ⟨2 * 10, [⟨0, 0, 0⟩], originGrid⟩ Rigid3.Identity [1, 1] =
        some (true, out₂) ∧
      ∀ i, i < ([⟨0, 0, 0⟩] : List (Vector3 ℚ)).length →
        ∃ r, out₁[i]? = some r ∧ out₂[i]? = some (2 * r)) ∧
    ieee754.round 10 = Double.finite 10 ∧
    ieee754.round (2 * 10) = Double.finite (2 * 10) ∧
    ∃ out₁ out₂,
      EvaluateT (⟨10, [⟨0, 0, 0⟩], originGridDouble⟩ : OccupiedSpaceCostFunction Double)
        identityDouble [Double.finite 0] = some (true, out₁) ∧
      EvaluateT (⟨2 * 10, [⟨0, 0, 0⟩], originGridDouble⟩ : OccupiedSpaceCostFunction Double)
        identityDouble [Double.finite 7, Double.finite 7] = some (true, out₂) ∧
      out₁[0]? = some (Double.finite (2 - 1 / 2 ^ 51)) ∧
      out₂[0]? = some (Double.finite (2 * (2 - 1 / 2 ^ 51))) := by
  obtain ⟨hexact, out₁, out₂, hout₁, hout₂, hdouble⟩ :=
    doubling_scaling_doubles_residuals_unless_rounding 10 [⟨0, 0, 0⟩] originGrid
      Rigid3.Identity [0] [1, 1] (by decide) (by decide) originGridDouble identityDouble
      [Double.finite 0] [Double.finite 7, Double.finite 7] (by decide) (by decide)
  have hfirst : out₁ = [Double.finite (2 - 1 / 2 ^ 51)] := by
    have h := EvaluateT_originCostDouble
    change EvaluateT (⟨10, [⟨0, 0, 0⟩], originGridDouble⟩ :
      OccupiedSpaceCostFunction Double) identityDouble [Double.finite 0] = _ at h
    rw [hout₁] at h
    injection h with h
    exact congrArg Prod.snd h
  have h₁ : out₁[0]? = some (Double.finite (2 - 1 / 2 ^ 51)) := by
    rw [hfirst]
    rfl
  have hx : (1 : Double) - probabilityAtT (⟨10, [⟨0, 0, 0⟩], originGridDouble⟩ :
        OccupiedSpaceCostFunction Double) identityDouble ⟨0, 0, 0⟩ =
      Double.finite (900719925474099 / 4503599627370496) := by
    rw [probabilityAtT_originCostDouble 10, Double.one_eq, Double.sub_finite,
      round_one_sub_four_fifths]
  refine ⟨by decide, by decide, by decide, by decide, hexact, round_ten, round_twenty,
    out₁, out₂, hout₁, hout₂, h₁, ?_⟩
  exact hdouble 10 round_ten round_twenty 0 (by decide) _ _ hx
    (Or.inr (by norm_num [abs_of_pos])) h₁ (by norm_num [abs_of_pos])

end OccupiedSpaceCostFunction
end scan_matching
end mapping_3d
end cartographer
